import Mathlib

/-!
# libkleo: Assuan command transport and override parsing

A shallow embedding of

* `src/utils/assuan.cpp` (`Kleo::Assuan::sendCommand`, `sendDataCommand`,
  `sendStatusLinesCommand`, `sendStatusCommand`),
* the override parsing loop of `src/tests/test_keyresolver.cpp` (`main`), and
* `src/utils/algorithm.h` (`Kleo::binary_find`, `Kleo::contains`).

Stateful C++ is written as explicit state passing: the function-local
`static int cnt` of `sendCommand` is a `Nat` that goes in and comes out, the
`QThread::msleep` calls of one call are collected in a list, and the object a
`std::shared_ptr<GpgME::Context>` points to is a value of type `Context`.
A `shared_ptr` handle itself is an `Option Context` (`none` after `reset()`).
-/

namespace Kleo

/-! ## libgpg-error codes used by `assuan.cpp` (values of `gpg-error.h`) -/

/-- The code `GPG_ERR_INV_ARG` of libgpg-error. -/
def GPG_ERR_INV_ARG : Nat := 45

/-- The code `GPG_ERR_ASS_GENERAL` of libgpg-error, first of the Assuan codes. -/
def GPG_ERR_ASS_GENERAL : Nat := 257

/-- The code `GPG_ERR_ASS_CONNECT_FAILED` of libgpg-error. -/
def GPG_ERR_ASS_CONNECT_FAILED : Nat := 259

/-- The code `GPG_ERR_ASS_UNKNOWN_INQUIRE` of libgpg-error, last of the Assuan codes. -/
def GPG_ERR_ASS_UNKNOWN_INQUIRE : Nat := 281

/-- A `GpgME::Error`, reduced to what `assuan.cpp` reads of it: `err.code()`. -/
structure Error where
  code : Nat
deriving DecidableEq, Repr

/-- A `GpgME::DefaultAssuanTransaction`: the buffered data and the status lines
collected by its callbacks. -/
structure AssuanTransaction where
  data : String
  statusLines : List (String × String)
deriving DecidableEq, Repr

/-- What the backend does in answer to one transacted command: the error it ends
with, the data it sends and the status lines it reports. -/
structure Reply where
  err : Error
  data : String
  statusLines : List (String × String)

/-- The object behind a `std::shared_ptr<GpgME::Context>`.
`respond` is the (deterministic) behaviour of the backend as a function of the
commands transacted so far on this session, the most recent one first;
`history` are those commands; `lastAssuanTransaction` is the transaction object
the context currently owns. -/
structure Context where
  respond : List String → Reply
  history : List String
  lastAssuanTransaction : Option AssuanTransaction

namespace Context

/-- The method `GpgME::Context::assuanTransact(command, transaction)`: the context
takes ownership of `transaction`; a null transaction is refused with
`GPG_ERR_INV_ARG` without talking to the backend; otherwise the command is
transacted, the callbacks append the backend's data and status lines to the
transaction, and the backend's error is returned. -/
def assuanTransact (c : Context) (command : String) (transaction : Option AssuanTransaction) :
    Error × Context :=
  match transaction with
  | none => (⟨GPG_ERR_INV_ARG⟩, { c with lastAssuanTransaction := none })
  | some t =>
    let h := command :: c.history
    let r := c.respond h
    (r.err,
      { c with
        history := h
        lastAssuanTransaction :=
          some { data := t.data ++ r.data, statusLines := t.statusLines ++ r.statusLines } })

/-- The method `GpgME::Context::takeLastAssuanTransaction()`: moves the owned
transaction out of the context. -/
def takeLastAssuanTransaction (c : Context) : Option AssuanTransaction × Context :=
  (c.lastAssuanTransaction, { c with lastAssuanTransaction := none })

end Context

namespace Assuan

/-- The variables of the `while` loop of `sendCommand` (assuan.cpp:55-62): the
out-parameter `err`, the static `cnt`, the context object, and the `msleep`
calls made so far (milliseconds, in order). -/
structure RetryState where
  err : Error
  cnt : Nat
  context : Context
  slept : List Nat

/-- The guard of the loop, assuan.cpp:55. -/
def retryGuard (s : RetryState) : Bool :=
  s.err.code == GPG_ERR_ASS_CONNECT_FAILED && decide (s.cnt < 5)

/-- One run of the loop body, assuan.cpp:59-61. -/
def retryBody (command : String) (s : RetryState) : RetryState :=
  let cnt := s.cnt + 1
  let taken := s.context.takeLastAssuanTransaction
  let r := taken.2.assuanTransact command taken.1
  { err := r.1, cnt := cnt, context := r.2, slept := s.slept ++ [250 * cnt] }

/-- The `while` loop of assuan.cpp:55-62, by recursion on a bound for the number
of runs of the body. `sendCommand` calls it with `5 - cnt`, which the loop can
never exceed (`retryLoop_guard_false`). -/
def retryLoop (command : String) : Nat → RetryState → RetryState
  | 0, s => s
  | fuel + 1, s =>
    if retryGuard s then retryLoop command fuel (retryBody command s) else s

/-- What one call of `sendCommand` leaves behind. -/
structure SendResult where
  /-- The returned `unique_ptr`. -/
  transaction : Option AssuanTransaction
  /-- The out-parameter `err`. -/
  err : Error
  /-- The `shared_ptr` passed by reference, as the caller finds it afterwards. -/
  context : Option Context
  /-- The context object as the call left it (before a possible `reset()`). -/
  session : Context
  /-- The static counter `cnt` after the call. -/
  cnt : Nat
  /-- The `msleep` calls of this call, in milliseconds, in order. -/
  slept : List Nat

/-- The function `Kleo::Assuan::sendCommand(context, command, transaction, err)`,
assuan.cpp:49-72. `cnt` is the value of the static counter at entry, `context`
the object the (non-null) handle points to. -/
def sendCommand (cnt : Nat) (context : Context) (command : String)
    (transaction : Option AssuanTransaction) : SendResult :=
  let first := context.assuanTransact command transaction
  let s := retryLoop command (5 - cnt) { err := first.1, cnt := cnt, context := first.2, slept := [] }
  if s.err.code ≠ 0 then
    if GPG_ERR_ASS_GENERAL ≤ s.err.code ∧ s.err.code ≤ GPG_ERR_ASS_UNKNOWN_INQUIRE then
      { transaction := none, err := s.err, context := none, session := s.context,
        cnt := s.cnt, slept := s.slept }
    else
      { transaction := none, err := s.err, context := some s.context, session := s.context,
        cnt := s.cnt, slept := s.slept }
  else
    let taken := s.context.takeLastAssuanTransaction
    { transaction := taken.1, err := s.err, context := some taken.2, session := taken.2,
      cnt := s.cnt, slept := s.slept }

/-- The overload `sendCommand(context, command, err)`, assuan.cpp:74-78: a fresh
`DefaultAssuanTransaction` is passed in. -/
def sendCommandDefault (cnt : Nat) (context : Context) (command : String) : SendResult :=
  sendCommand cnt context command (some { data := "", statusLines := [] })

/-- The number of times the command was transacted with the backend during a call. -/
def SendResult.attempts (r : SendResult) (before : Context) : Nat :=
  r.session.history.length - before.history.length

/-- What one call of a derived accessor leaves behind. The accessors receive the
handle by value (or by const reference and copy it), so there are two handles:
the caller's, which the call cannot change, and the callee's copy. -/
structure AccessorResult (α : Type) where
  /-- The returned value. -/
  value : α
  /-- The out-parameter `err`. -/
  err : Error
  /-- The caller's own `shared_ptr` after the call. -/
  callerContext : Option Context
  /-- The by-value copy of the `shared_ptr` that was handed on to `sendCommand`, when
  the call returns. -/
  localContext : Option Context
  /-- The static counter `cnt` after the call. -/
  cnt : Nat
  /-- The `msleep` calls of this call. -/
  slept : List Nat

/-- The function `Kleo::Assuan::sendDataCommand`, assuan.cpp:80-91. -/
def sendDataCommand (cnt : Nat) (context : Context) (command : String) :
    AccessorResult String :=
  let r := sendCommandDefault cnt context command
  let data := match r.transaction with
    | some t => t.data
    | none => ""
  { value := data, err := r.err, callerContext := some r.session, localContext := r.context,
    cnt := r.cnt, slept := r.slept }

/-- The function `Kleo::Assuan::sendStatusLinesCommand`, assuan.cpp:93-104. -/
def sendStatusLinesCommand (cnt : Nat) (context : Context) (command : String) :
    AccessorResult (List (String × String)) :=
  let r := sendCommandDefault cnt context command
  let statusLines := match r.transaction with
    | some t => t.statusLines
    | none => []
  { value := statusLines, err := r.err, callerContext := some r.session,
    localContext := r.context, cnt := r.cnt, slept := r.slept }

/-- The call `s.rfind(c)` of `std::string`: the highest position holding `c`,
`none` for `npos`. -/
def rfind (c : Char) : List Char → Option Nat
  | [] => none
  | x :: xs =>
    match rfind c xs with
    | some i => some (i + 1)
    | none => if x = c then some 0 else none

/-- The `needle` of `sendStatusCommand`, assuan.cpp:112-113. -/
def needle (command : String) : String :=
  match rfind ' ' command.data with
  | none => command
  | some lastSpace => ⟨command.data.drop (lastSpace + 1)⟩

/-- The `for` loop of `sendStatusCommand`, assuan.cpp:114-119. -/
def scanStatus (needle : String) : List (String × String) → String
  | [] => ""
  | pair :: rest => if pair.1 = needle then pair.2 else scanStatus needle rest

/-- The function `Kleo::Assuan::sendStatusCommand`, assuan.cpp:106-120. -/
def sendStatusCommand (cnt : Nat) (context : Context) (command : String) :
    AccessorResult String :=
  let lines := sendStatusLinesCommand cnt context command
  { value := scanStatus (needle command) lines.value, err := lines.err,
    callerContext := lines.callerContext, localContext := lines.localContext,
    cnt := lines.cnt, slept := lines.slept }

/-! ## Vocabulary for stating what `sendCommand` did -/

/-- The backend behind `c` answers every transacted command with the
connect-failed error. -/
def AlwaysConnectFailed (c : Context) : Prop :=
  ∀ h, (c.respond h).err.code = GPG_ERR_ASS_CONNECT_FAILED

/-- The error code lies in the range tested at assuan.cpp:65. -/
def InAssuanRange (code : Nat) : Prop :=
  GPG_ERR_ASS_GENERAL ≤ code ∧ code ≤ GPG_ERR_ASS_UNKNOWN_INQUIRE

instance (code : Nat) : Decidable (InAssuanRange code) := by
  unfold InAssuanRange; infer_instance

/-- The history of the session `ctx` after `command` was transacted `n` more times. -/
def attemptHistory (ctx : Context) (command : String) (n : Nat) : List String :=
  List.replicate n command ++ ctx.history

/-- The transaction `t` after the callbacks of the first `n` attempts of `command`
on the session `ctx` have appended what the backend sent. -/
def buffered (ctx : Context) (command : String) (t : AssuanTransaction) : Nat → AssuanTransaction
  | 0 => t
  | n + 1 =>
    let b := buffered ctx command t n
    let r := ctx.respond (attemptHistory ctx command (n + 1))
    { data := b.data ++ r.data, statusLines := b.statusLines ++ r.statusLines }

/-- The state of the retry loop of `sendCommand` when it exits. -/
def loopExit (cnt : Nat) (context : Context) (command : String)
    (transaction : Option AssuanTransaction) : RetryState :=
  retryLoop command (5 - cnt)
    { err := (context.assuanTransact command transaction).1, cnt := cnt,
      context := (context.assuanTransact command transaction).2, slept := [] }

/-- The final token of a command in the words of the specification: the substring
after the last space, the whole command when it has no space. -/
def finalToken (command : String) : String :=
  ⟨(command.data.reverse.takeWhile (fun c => c ≠ ' ')).reverse⟩

/-- The value of the first pair with keyword `keyword`, empty when there is none. -/
def firstValue (keyword : String) (lines : List (String × String)) : String :=
  match lines.find? (fun p => p.1 = keyword) with
  | some p => p.2
  | none => ""

/-! ## Sample sessions -/

/-- A session whose backend reports connect-failed on every attempt. -/
def connectFailedSession : Context :=
  { respond := fun _ => { err := ⟨GPG_ERR_ASS_CONNECT_FAILED⟩, data := "", statusLines := [] }
    history := []
    lastAssuanTransaction := none }

/-- A session whose backend reports `GPG_ERR_ASS_GENERAL` on every attempt. -/
def protocolErrorSession : Context :=
  { respond := fun _ => { err := ⟨GPG_ERR_ASS_GENERAL⟩, data := "", statusLines := [] }
    history := []
    lastAssuanTransaction := none }

/-- A session whose backend refuses every command with code 100 (outside the
Assuan range). -/
def refusingSession : Context :=
  { respond := fun _ => { err := ⟨100⟩, data := "", statusLines := [] }
    history := []
    lastAssuanTransaction := none }

/-- A session whose backend is not up for the first two attempts and then answers
with data and status lines. -/
def slowStartSession : Context :=
  { respond := fun h =>
      if h.length < 3 then { err := ⟨GPG_ERR_ASS_CONNECT_FAILED⟩, data := "", statusLines := [] }
      else { err := ⟨0⟩, data := "D", statusLines := [("SERIALNO", "1"), ("FOO", "a"), ("FOO", "b")] }
    history := []
    lastAssuanTransaction := none }

/-- An empty `DefaultAssuanTransaction`. -/
def emptyTransaction : AssuanTransaction := { data := "", statusLines := [] }

end Assuan

/-! ## The override parsing of `tests/test_keyresolver.cpp` -/

/-- Modelled from the spec: the enumeration `Kleo::CryptoMessageFormat` (declared in
`kleo/enum.h`, which is not among the sources at hand), the closed set of the four
concrete formats, the two wildcard families and `Auto`. -/
inductive CryptoMessageFormat where
  | InlineOpenPGPFormat
  | OpenPGPMIMEFormat
  | SMIMEFormat
  | SMIMEOpaqueFormat
  | AnyOpenPGP
  | AnySMIME
  | AutoFormat
deriving DecidableEq, Repr

/-- A `QMap<K, V>` as an association list with at most one pair per key. -/
abbrev QMap (κ ν : Type) := List (κ × ν)

namespace QMap

/-- The call `map.insert(key, value)`: the value under an existing key is replaced,
a new key is added. -/
def insert {κ ν : Type} [DecidableEq κ] : QMap κ ν → κ → ν → QMap κ ν
  | [], k, v => [(k, v)]
  | (k', v') :: m, k, v => if k' = k then (k, v) :: m else (k', v') :: insert m k v

/-- The value stored under `key`, if any. -/
def find {κ ν : Type} [DecidableEq κ] : QMap κ ν → κ → Option ν
  | [], _ => none
  | (k', v') :: m, k => if k' = k then some v' else find m k

/-- The call `map.value(key)`: the value stored under `key`, a default-constructed
(empty) map when there is none. -/
def value {κ κ' ν : Type} [DecidableEq κ] (m : QMap κ (QMap κ' ν)) (k : κ) : QMap κ' ν :=
  match find m k with
  | some v => v
  | none => []

end QMap

namespace TestKeyResolver

/-- Splitting a character sequence at every `sep`, empty parts kept. -/
def splitChars (sep : Char) : List Char → List (List Char)
  | [] => [[]]
  | c :: cs =>
    if c = sep then [] :: splitChars sep cs
    else
      match splitChars sep cs with
      | [] => [[c]]
      | part :: parts => (c :: part) :: parts

/-- The call `s.split(sep)` of `QString` (empty parts are kept). -/
def split (s : String) (sep : Char) : List String :=
  (splitChars sep s.data).map String.mk

/-- Lower-casing of the ASCII letters, one instance of `QString::toLower`. -/
def asciiLower (s : String) : String :=
  ⟨s.data.map Char.toLower⟩

/-- The `if`/`else if` chain of test_keyresolver.cpp:133-149 on the lower-cased third
field: the format it selects, `none` where the chain ends in `parser.showHelp(1)`. -/
def formatOfToken (fmtStr : String) : Option CryptoMessageFormat :=
  if fmtStr = "inlineopenpgp" then some .InlineOpenPGPFormat
  else if fmtStr = "openpgpmime" then some .OpenPGPMIMEFormat
  else if fmtStr = "smime" then some .SMIMEFormat
  else if fmtStr = "smimeopaque" then some .SMIMEOpaqueFormat
  else if fmtStr = "anyopenpgp" then some .AnyOpenPGP
  else if fmtStr = "anysmime" then some .AnySMIME
  else if fmtStr = "auto" then some .AutoFormat
  else none

/-- Equality of the outcomes of a computation that may end the process is decidable. -/
instance decEqExcept {ε α : Type} [DecidableEq ε] [DecidableEq α] : DecidableEq (Except ε α)
  | .error a, .error b =>
    if h : a = b then isTrue (by rw [h]) else isFalse (fun e => h (by injection e))
  | .ok a, .ok b =>
    if h : a = b then isTrue (by rw [h]) else isFalse (fun e => h (by injection e))
  | .error _, .ok _ => isFalse (fun e => by injection e)
  | .ok _, .error _ => isFalse (fun e => by injection e)

/-- The table `overrides` of `main`: format, then mailbox, to the fingerprints. -/
abbrev Overrides := QMap CryptoMessageFormat (QMap String (List String))

/-- One run of the body of the `for` loop of test_keyresolver.cpp:124-156 on the entry
`oride`. `parser.showHelp(1)` ends the process with exit status 1, which is
`Except.error 1`. `toLower` is `QString::toLower`. -/
def overrideStep (toLower : String → String) (overrides : Overrides) (oride : String) :
    Except Nat Overrides :=
  let split := split oride ':'
  if split.length < 2 ∨ split.length > 3 then .error 1
  else
    let chosen :=
      if split.length = 3 then formatOfToken (toLower (split.getD 2 ""))
      else some CryptoMessageFormat.AutoFormat
    match chosen with
    | none => .error 1
    | some fmt =>
      let fingerprints := TestKeyResolver.split (split.getD 1 "") ','
      let map := QMap.value overrides fmt
      let map := QMap.insert map (split.getD 0 "") fingerprints
      .ok (QMap.insert overrides fmt map)

/-- The `for` loop of test_keyresolver.cpp:124-156 over the values of the option
`overrides`. -/
def overrideLoop (toLower : String → String) : Overrides → List String → Except Nat Overrides
  | overrides, [] => .ok overrides
  | overrides, oride :: rest =>
    match overrideStep toLower overrides oride with
    | .error status => .error status
    | .ok overrides' => overrideLoop toLower overrides' rest

/-- The part of `main` before the resolver is started, test_keyresolver.cpp:113-157:
the exit status when `main` ends the process there, otherwise the table that is handed
to `resolver.setOverrideKeys` before `resolver.start` is scheduled. -/
def setup (toLower : String → String) (recps : List String) (orides : List String) :
    Except Nat Overrides :=
  if recps.length < 1 then .error 1
  else overrideLoop toLower [] orides

/-- The seven format tokens of the specification. -/
def formatTokens : List String :=
  ["inlineopenpgp", "openpgpmime", "smime", "smimeopaque", "anyopenpgp", "anysmime", "auto"]

/-- An override entry is malformed, in the words of the specification: splitting it on
`:` gives fewer than 2 or more than 3 fields, or it has 3 fields and the third,
lower-cased, is not one of the seven format tokens. -/
def Malformed (toLower : String → String) (oride : String) : Prop :=
  (split oride ':').length < 2 ∨ (split oride ':').length > 3 ∨
    ((split oride ':').length = 3 ∧ toLower ((split oride ':').getD 2 "") ∉ formatTokens)

end TestKeyResolver

namespace TestKeyResolver

/-- The seven format tokens of the specification, each with the format it names. -/
def tokenFormats : List (String × CryptoMessageFormat) :=
  [("inlineopenpgp", .InlineOpenPGPFormat), ("openpgpmime", .OpenPGPMIMEFormat),
    ("smime", .SMIMEFormat), ("smimeopaque", .SMIMEOpaqueFormat),
    ("anyopenpgp", .AnyOpenPGP), ("anysmime", .AnySMIME), ("auto", .AutoFormat)]

/-- The string `s` is `token` up to the case of its letters: position by position, the
character of `s` is the character of `token` or its upper-case form. -/
def CaseVariant (s token : String) : Prop :=
  List.Forall₂ (fun c t => c = t ∨ c = t.toUpper) s.data token.data

/-- Joining character sequences with `sep` between them. -/
def joinChars (sep : Char) : List (List Char) → List Char
  | [] => []
  | [part] => part
  | part :: next :: parts => part ++ sep :: joinChars sep (next :: parts)

/-- The call `list.join(sep)` of `QStringList`. -/
def join (parts : List String) (sep : Char) : String :=
  ⟨joinChars sep (parts.map String.data)⟩

/-- The fingerprints the table holds for a format and a mailbox, if any. -/
def lookup (overrides : Overrides) (fmt : CryptoMessageFormat) (mailbox : String) :
    Option (List String) :=
  QMap.find (QMap.value overrides fmt) mailbox

/-- What an override entry asks to store: the format, the mailbox and the
fingerprints; `none` for an entry that is not accepted. -/
def entryOf (toLower : String → String) (oride : String) :
    Option (CryptoMessageFormat × String × List String) :=
  if (split oride ':').length = 2 then
    some (.AutoFormat, (split oride ':').getD 0 "", split ((split oride ':').getD 1 "") ',')
  else if (split oride ':').length = 3 then
    match formatOfToken (toLower ((split oride ':').getD 2 "")) with
    | some fmt => some (fmt, (split oride ':').getD 0 "", split ((split oride ':').getD 1 "") ',')
    | none => none
  else none

/-- The fingerprints of the last entry of the list that names the format and the
mailbox, if there is one. -/
def lastStored (fmt : CryptoMessageFormat) (mailbox : String) :
    List (CryptoMessageFormat × String × List String) → Option (List String)
  | [] => none
  | entry :: rest =>
    match lastStored fmt mailbox rest with
    | some fingerprints => some fingerprints
    | none => if entry.1 = fmt ∧ entry.2.1 = mailbox then some entry.2.2 else none

end TestKeyResolver

/-! ## The helpers of `utils/algorithm.h` -/

namespace Algorithm

/-- The call `std::find(begin, end, key)`: the position of the first element that
compares equal to `key` with `eq` (the `operator==` in use), the length of the
sequence (the end position) when there is none. -/
def find {α κ : Type} (eq : α → κ → Bool) : List α → κ → Nat
  | [], _ => 0
  | x :: xs, key => if eq x key then 0 else find eq xs key + 1

/-- The function `Kleo::contains(container, key)`, algorithm.h:44-48, on a container
seen as the sequence of its elements. -/
def contains {α κ : Type} (eq : α → κ → Bool) (container : List α) (key : κ) : Bool :=
  find eq container key != container.length

/-- The loop of `std::lower_bound` (as in libstdc++): `first` and `len` delimit the
part of the range still searched. The first argument bounds the number of rounds;
`len` rounds always suffice, since every round makes `len` smaller. -/
def lowerBoundLoop {α : Type} (comp : α → α → Bool) (range : List α) (value : α) :
    Nat → Nat → Nat → Nat
  | 0, first, _ => first
  | rounds + 1, first, len =>
    if len = 0 then first
    else
      match range[first + len / 2]? with
      | none => first
      | some middle =>
        if comp middle value then
          lowerBoundLoop comp range value rounds (first + len / 2 + 1) (len - len / 2 - 1)
        else lowerBoundLoop comp range value rounds first (len / 2)

/-- The call `std::lower_bound(first, last, value, comp)` on the whole sequence, by
binary search; positions are indices, the end position is the length. -/
def lower_bound {α : Type} (comp : α → α → Bool) (range : List α) (value : α) : Nat :=
  lowerBoundLoop comp range value range.length 0 range.length

/-- The function `Kleo::binary_find`, algorithm.h:18-30; `comp` is `operator<` for the
first overload and the comparison passed in for the second. -/
def binary_find {α : Type} (comp : α → α → Bool) (range : List α) (value : α) : Nat :=
  let it := lower_bound comp range value
  match range[it]? with
  | none => range.length
  | some x => if comp value x then range.length else it

/-- The comparison is a strict weak ordering: irreflexive, transitive, and with a
transitive incomparability. -/
structure StrictWeakOrdering {α : Type} (comp : α → α → Bool) : Prop where
  irrefl : ∀ x, comp x x = false
  trans : ∀ x y z, comp x y = true → comp y z = true → comp x z = true
  incomp_trans : ∀ x y z, comp x y = false → comp y x = false → comp y z = false →
    comp z y = false → comp x z = false ∧ comp z x = false

/-- Two values are equivalent under the comparison: neither is less than the other. -/
def Equivalent {α : Type} (comp : α → α → Bool) (x y : α) : Prop :=
  comp x y = false ∧ comp y x = false

/-- The sequence is sorted in non-decreasing order under the comparison: no element
is less than an earlier one. -/
def SortedUnder {α : Type} (comp : α → α → Bool) (range : List α) : Prop :=
  range.Pairwise (fun x y => comp y x = false)

/-- The comparison `<` of the natural numbers. -/
def natLess (x y : Nat) : Bool := decide (x < y)

/-- The comparison `==` of the natural numbers. -/
def natEq (x y : Nat) : Bool := decide (x = y)

end Algorithm

namespace Assuan

/-! ## The retry loop -/

/-- The facts that hold of the loop state after the `n`-th attempt of a call that
started with counter `cnt0` on session `ctx` with transaction `t`. -/
structure Trace (cnt0 : Nat) (ctx : Context) (command : String) (t : AssuanTransaction)
    (n : Nat) (s : RetryState) : Prop where
  pos : 1 ≤ n
  respond : s.context.respond = ctx.respond
  history : s.context.history = attemptHistory ctx command n
  last : s.context.lastAssuanTransaction = some (buffered ctx command t n)
  err : s.err = (ctx.respond (attemptHistory ctx command n)).err
  cnt : s.cnt + 1 = cnt0 + n
  slept : s.slept = (List.range (n - 1)).map (fun k => 250 * (cnt0 + k + 1))
  bound : n = 1 ∨ s.cnt ≤ 5
  earlier : ∀ k, 1 ≤ k → k < n →
    (ctx.respond (attemptHistory ctx command k)).err.code = GPG_ERR_ASS_CONNECT_FAILED

theorem attemptHistory_succ (ctx : Context) (command : String) (n : Nat) :
    attemptHistory ctx command (n + 1) = command :: attemptHistory ctx command n := by
  simp [attemptHistory, List.replicate_succ]

theorem retryGuard_iff (s : RetryState) :
    retryGuard s = true ↔ s.err.code = GPG_ERR_ASS_CONNECT_FAILED ∧ s.cnt < 5 := by
  simp [retryGuard]

theorem trace_init (cnt0 : Nat) (ctx : Context) (command : String) (t : AssuanTransaction) :
    Trace cnt0 ctx command t 1
      { err := (ctx.assuanTransact command (some t)).1, cnt := cnt0,
        context := (ctx.assuanTransact command (some t)).2, slept := [] } where
  pos := le_refl 1
  respond := rfl
  history := by simp [Context.assuanTransact, attemptHistory]
  last := by simp [Context.assuanTransact, buffered, attemptHistory]
  err := by simp [Context.assuanTransact, attemptHistory]
  cnt := rfl
  slept := by simp
  bound := Or.inl rfl
  earlier := by intro k h1 h2; omega

theorem trace_step {cnt0 : Nat} {ctx : Context} {command : String} {t : AssuanTransaction}
    {n : Nat} {s : RetryState} (h : Trace cnt0 ctx command t n s) (hg : retryGuard s = true) :
    Trace cnt0 ctx command t (n + 1) (retryBody command s) := by
  obtain ⟨hcode, hcnt⟩ := (retryGuard_iff s).1 hg
  have hpos := h.pos
  refine ⟨by omega, ?_, ?_, ?_, ?_, ?_, ?_, ?_, ?_⟩
  · simp [retryBody, Context.takeLastAssuanTransaction, Context.assuanTransact, h.last, h.respond]
  · simp [retryBody, Context.takeLastAssuanTransaction, Context.assuanTransact, h.last,
      h.history, attemptHistory_succ]
  · simp [retryBody, Context.takeLastAssuanTransaction, Context.assuanTransact, h.last,
      h.history, h.respond, attemptHistory_succ, buffered]
  · simp [retryBody, Context.takeLastAssuanTransaction, Context.assuanTransact, h.last,
      h.history, h.respond, attemptHistory_succ]
  · have := h.cnt
    simp only [retryBody]
    omega
  · have hc := h.cnt
    have hn : n + 1 - 1 = (n - 1) + 1 := by omega
    have hk : s.cnt + 1 = cnt0 + (n - 1) + 1 := by omega
    simp only [retryBody, h.slept, hn, List.range_succ, List.map_append, List.map_cons,
      List.map_nil, hk]
  · right
    simp only [retryBody]
    omega
  · intro k h1 h2
    by_cases hk : k < n
    · exact h.earlier k h1 hk
    · have : k = n := by omega
      subst this
      rw [← h.err]; exact hcode

theorem trace_loop {cnt0 : Nat} {ctx : Context} {command : String} {t : AssuanTransaction}
    (fuel : Nat) : ∀ (n : Nat) (s : RetryState), Trace cnt0 ctx command t n s →
      ∃ m, n ≤ m ∧ Trace cnt0 ctx command t m (retryLoop command fuel s) := by
  induction fuel with
  | zero => intro n s h; exact ⟨n, le_refl n, h⟩
  | succ fuel ih =>
    intro n s h
    by_cases hg : retryGuard s = true
    · obtain ⟨m, hm, hT⟩ := ih (n + 1) (retryBody command s) (trace_step h hg)
      refine ⟨m, by omega, ?_⟩
      simpa [retryLoop, hg] using hT
    · refine ⟨n, le_refl n, ?_⟩
      simpa [retryLoop, hg] using h

theorem retryLoop_guard_false (command : String) (fuel : Nat) :
    ∀ s : RetryState, 5 - s.cnt ≤ fuel → retryGuard (retryLoop command fuel s) = false := by
  induction fuel with
  | zero =>
    intro s h
    simp only [retryLoop]
    cases hg : retryGuard s with
    | false => rfl
    | true => have := ((retryGuard_iff s).1 hg).2; omega
  | succ fuel ih =>
    intro s h
    cases hg : retryGuard s with
    | false => simp [retryLoop, hg]
    | true =>
      simp only [retryLoop, hg, if_true]
      apply ih
      simp only [retryBody]
      omega

theorem retryLoop_fuel (command : String) (fuel : Nat) :
    ∀ s : RetryState, 5 - s.cnt ≤ fuel →
      retryLoop command fuel s = retryLoop command (5 - s.cnt) s := by
  induction fuel with
  | zero => intro s h; have : 5 - s.cnt = 0 := by omega
            rw [this]
  | succ fuel ih =>
    intro s h
    cases hg : retryGuard s with
    | false =>
      cases h5 : 5 - s.cnt with
      | zero => simp [retryLoop, hg]
      | succ k => simp [retryLoop, hg]
    | true =>
      have hc := ((retryGuard_iff s).1 hg).2
      obtain ⟨k, hk⟩ : ∃ k, 5 - s.cnt = k + 1 := ⟨4 - s.cnt, by omega⟩
      rw [hk]
      simp only [retryLoop, hg, if_true]
      have hb : 5 - (retryBody command s).cnt = k := by simp only [retryBody]; omega
      rw [ih _ (by rw [hb]; omega), hb]

/-! ## What `sendCommand` returns, in terms of the loop exit state -/

theorem retryLoop_of_guard_false (command : String) (fuel : Nat) (s : RetryState)
    (h : retryGuard s = false) : retryLoop command fuel s = s := by
  cases fuel with
  | zero => rfl
  | succ fuel => simp [retryLoop, h]

theorem loopExit_trace (cnt : Nat) (ctx : Context) (command : String) (t : AssuanTransaction) :
    ∃ n, Trace cnt ctx command t n (loopExit cnt ctx command (some t)) := by
  obtain ⟨m, _, hT⟩ := trace_loop (5 - cnt) 1 _ (trace_init cnt ctx command t)
  exact ⟨m, hT⟩

theorem loopExit_guard_false (cnt : Nat) (ctx : Context) (command : String)
    (transaction : Option AssuanTransaction) :
    retryGuard (loopExit cnt ctx command transaction) = false :=
  retryLoop_guard_false command (5 - cnt) _ (le_refl _)

theorem loopExit_none (cnt : Nat) (ctx : Context) (command : String) :
    loopExit cnt ctx command none =
      { err := ⟨GPG_ERR_INV_ARG⟩, cnt := cnt,
        context := { ctx with lastAssuanTransaction := none }, slept := [] } := by
  unfold loopExit
  rw [retryLoop_of_guard_false]
  · rfl
  · simp [retryGuard, Context.assuanTransact, GPG_ERR_INV_ARG, GPG_ERR_ASS_CONNECT_FAILED]

theorem sendCommand_err (cnt : Nat) (ctx : Context) (command : String)
    (transaction : Option AssuanTransaction) :
    (sendCommand cnt ctx command transaction).err = (loopExit cnt ctx command transaction).err := by
  simp only [sendCommand, loopExit]
  split_ifs <;> rfl

theorem sendCommand_cnt (cnt : Nat) (ctx : Context) (command : String)
    (transaction : Option AssuanTransaction) :
    (sendCommand cnt ctx command transaction).cnt = (loopExit cnt ctx command transaction).cnt := by
  simp only [sendCommand, loopExit]
  split_ifs <;> rfl

theorem sendCommand_slept (cnt : Nat) (ctx : Context) (command : String)
    (transaction : Option AssuanTransaction) :
    (sendCommand cnt ctx command transaction).slept =
      (loopExit cnt ctx command transaction).slept := by
  simp only [sendCommand, loopExit]
  split_ifs <;> rfl

theorem sendCommand_history (cnt : Nat) (ctx : Context) (command : String)
    (transaction : Option AssuanTransaction) :
    (sendCommand cnt ctx command transaction).session.history =
      (loopExit cnt ctx command transaction).context.history := by
  simp only [sendCommand, loopExit]
  split_ifs <;> rfl

theorem sendCommand_transaction_of_ne (cnt : Nat) (ctx : Context) (command : String)
    (transaction : Option AssuanTransaction)
    (h : (loopExit cnt ctx command transaction).err.code ≠ 0) :
    (sendCommand cnt ctx command transaction).transaction = none := by
  simp only [loopExit] at h
  simp only [sendCommand]
  split_ifs <;> rfl

theorem sendCommand_transaction_of_eq (cnt : Nat) (ctx : Context) (command : String)
    (transaction : Option AssuanTransaction)
    (h : (loopExit cnt ctx command transaction).err.code = 0) :
    (sendCommand cnt ctx command transaction).transaction =
        (loopExit cnt ctx command transaction).context.lastAssuanTransaction ∧
      (sendCommand cnt ctx command transaction).session.lastAssuanTransaction = none ∧
      (sendCommand cnt ctx command transaction).context =
        some (sendCommand cnt ctx command transaction).session := by
  simp only [loopExit] at h
  simp only [sendCommand, loopExit, h, ne_eq, not_true_eq_false, if_false,
    Context.takeLastAssuanTransaction, and_self]

theorem sendCommand_context (cnt : Nat) (ctx : Context) (command : String)
    (transaction : Option AssuanTransaction) :
    (sendCommand cnt ctx command transaction).context =
      if InAssuanRange (sendCommand cnt ctx command transaction).err.code then none
      else some (sendCommand cnt ctx command transaction).session := by
  by_cases h0 : (loopExit cnt ctx command transaction).err.code = 0
  · have hr : ¬ InAssuanRange (sendCommand cnt ctx command transaction).err.code := by
      rw [sendCommand_err, h0]; simp [InAssuanRange, GPG_ERR_ASS_GENERAL]
    rw [if_neg hr]
    exact (sendCommand_transaction_of_eq cnt ctx command transaction h0).2.2
  · have h0' := h0
    simp only [loopExit] at h0'
    simp only [sendCommand, InAssuanRange]
    split_ifs <;> rfl

theorem attemptHistory_length (ctx : Context) (command : String) (n : Nat) :
    (attemptHistory ctx command n).length - ctx.history.length = n := by
  simp [attemptHistory]

/-! ## Counting attempts and sleeps -/

theorem sendCommand_retries (cnt : Nat) (ctx : Context) (command : String)
    (t : AssuanTransaction) :
    (sendCommand cnt ctx command (some t)).slept.length ≤ 5 - cnt ∧
      (sendCommand cnt ctx command (some t)).cnt =
        cnt + (sendCommand cnt ctx command (some t)).slept.length ∧
      (sendCommand cnt ctx command (some t)).attempts ctx =
        1 + (sendCommand cnt ctx command (some t)).slept.length := by
  obtain ⟨n, hT⟩ := loopExit_trace cnt ctx command t
  have hc := hT.cnt
  have hp := hT.pos
  have hb := hT.bound
  rw [SendResult.attempts, sendCommand_history, sendCommand_slept, sendCommand_cnt, hT.history,
    attemptHistory_length, hT.slept]
  simp only [List.length_map, List.length_range]
  omega

theorem sendCommand_slept_eq (cnt : Nat) (ctx : Context) (command : String)
    (t : AssuanTransaction) :
    (sendCommand cnt ctx command (some t)).slept =
      (List.range (sendCommand cnt ctx command (some t)).slept.length).map
        (fun k => 250 * (cnt + k + 1)) := by
  obtain ⟨n, hT⟩ := loopExit_trace cnt ctx command t
  have hs := hT.slept
  rw [← sendCommand_slept] at hs
  have hlen := congrArg List.length hs
  simp only [List.length_map, List.length_range] at hlen
  rw [hlen]
  exact hs

theorem sendCommand_none (cnt : Nat) (ctx : Context) (command : String) :
    (sendCommand cnt ctx command none).slept = [] ∧
      (sendCommand cnt ctx command none).err.code = GPG_ERR_INV_ARG ∧
      (sendCommand cnt ctx command none).transaction = none := by
  refine ⟨?_, ?_, ?_⟩
  · rw [sendCommand_slept, loopExit_none]
  · rw [sendCommand_err, loopExit_none]
  · apply sendCommand_transaction_of_ne
    rw [loopExit_none]
    simp [GPG_ERR_INV_ARG]

theorem sendCommand_always_connect_failed {ctx : Context} (h : AlwaysConnectFailed ctx)
    (command : String) (t : AssuanTransaction) :
    (sendCommand 0 ctx command (some t)).attempts ctx = 6 ∧
      (sendCommand 0 ctx command (some t)).slept = [250, 500, 750, 1000, 1250] ∧
      (sendCommand 0 ctx command (some t)).cnt = 5 ∧
      (sendCommand 0 ctx command (some t)).err.code = GPG_ERR_ASS_CONNECT_FAILED ∧
      (sendCommand 0 ctx command (some t)).transaction = none := by
  obtain ⟨n, hT⟩ := loopExit_trace 0 ctx command t
  have hg := loopExit_guard_false 0 ctx command (some t)
  have herr : (loopExit 0 ctx command (some t)).err.code = GPG_ERR_ASS_CONNECT_FAILED := by
    rw [hT.err]; exact h _
  have hcnt : ¬ (loopExit 0 ctx command (some t)).cnt < 5 := by
    intro hlt
    have := (retryGuard_iff _).2 ⟨herr, hlt⟩
    rw [hg] at this
    exact Bool.false_ne_true this
  have hc := hT.cnt
  have hn : n = 6 := by
    rcases hT.bound with h1 | h5
    · omega
    · omega
  subst hn
  refine ⟨?_, ?_, ?_, ?_, ?_⟩
  · rw [SendResult.attempts, sendCommand_history, hT.history, attemptHistory_length]
  · rw [sendCommand_slept, hT.slept]; decide
  · rw [sendCommand_cnt]; omega
  · rw [sendCommand_err]; exact herr
  · apply sendCommand_transaction_of_ne
    rw [herr]; decide

/-! ## The claims on the transport -/

/-- C1 (as amended): for the first command of a process (static counter 0) on a
session whose backend reports connect-failed on every attempt, `sendCommand`
transacts the command exactly 6 times (the first attempt and 5 retries), sleeps 5
times, and then fails with the connect-failed code, returning no transaction. -/
theorem sendCommand_connect_failed_six_attempts (ctx : Context) (command : String)
    (t : AssuanTransaction) (h : AlwaysConnectFailed ctx) :
    (sendCommand 0 ctx command (some t)).attempts ctx = 6 ∧
      (sendCommand 0 ctx command (some t)).slept.length = 5 ∧
      (sendCommand 0 ctx command (some t)).err.code = GPG_ERR_ASS_CONNECT_FAILED ∧
      (sendCommand 0 ctx command (some t)).transaction = none := by
  obtain ⟨h6, hs, _, he, ht⟩ := sendCommand_always_connect_failed h command t
  exact ⟨h6, by rw [hs]; rfl, he, ht⟩

/-- C1, witness: the theorem at the sample session that always reports connect-failed. -/
theorem sendCommand_connect_failed_six_attempts_witness :
    AlwaysConnectFailed connectFailedSession ∧
      (sendCommand 0 connectFailedSession "GETINFO version" (some emptyTransaction)).attempts
        connectFailedSession = 6 :=
  ⟨fun _ => rfl,
    (sendCommand_connect_failed_six_attempts connectFailedSession "GETINFO version"
      emptyTransaction (fun _ => rfl)).1⟩

/-- C1, counterexample: on the sample session that always reports connect-failed the
first command of a process is transacted 6 times, not 5. -/
theorem sendCommand_connect_failed_not_five_attempts :
    AlwaysConnectFailed connectFailedSession ∧
      (sendCommand 0 connectFailedSession "GETINFO version" (some emptyTransaction)).attempts
        connectFailedSession ≠ 5 :=
  ⟨fun _ => rfl, by decide⟩

/-- C2 (as amended): the retry budget of `sendCommand` is process-wide. A call entered
with counter `cnt` sleeps (retries) at most `5 - cnt` times, makes one attempt more
than it sleeps, and leaves the counter advanced by the number of its retries. So of
two consecutive calls against backends that always report connect-failed, starting
from the initial counter, the first makes 6 attempts with the sleeps 250, 500, 750,
1000, 1250 ms, and the second makes one attempt and does not sleep. -/
theorem sendCommand_retry_budget_process_wide :
    (∀ (cnt : Nat) (ctx : Context) (command : String) (t : AssuanTransaction),
      (sendCommand cnt ctx command (some t)).slept.length ≤ 5 - cnt ∧
      (sendCommand cnt ctx command (some t)).cnt =
        cnt + (sendCommand cnt ctx command (some t)).slept.length ∧
      (sendCommand cnt ctx command (some t)).attempts ctx =
        1 + (sendCommand cnt ctx command (some t)).slept.length) ∧
    (∀ (ctx₁ ctx₂ : Context) (command₁ command₂ : String) (t₁ t₂ : AssuanTransaction),
      AlwaysConnectFailed ctx₁ → AlwaysConnectFailed ctx₂ →
      (sendCommand 0 ctx₁ command₁ (some t₁)).attempts ctx₁ = 6 ∧
      (sendCommand 0 ctx₁ command₁ (some t₁)).slept = [250, 500, 750, 1000, 1250] ∧
      (sendCommand (sendCommand 0 ctx₁ command₁ (some t₁)).cnt ctx₂ command₂
        (some t₂)).attempts ctx₂ = 1 ∧
      (sendCommand (sendCommand 0 ctx₁ command₁ (some t₁)).cnt ctx₂ command₂
        (some t₂)).slept = []) := by
  refine ⟨sendCommand_retries, ?_⟩
  intro ctx₁ ctx₂ command₁ command₂ t₁ t₂ h₁ _
  obtain ⟨h6, hs, hcnt5, _, _⟩ := sendCommand_always_connect_failed h₁ command₁ t₁
  obtain ⟨hle, _, hatt⟩ := sendCommand_retries 5 ctx₂ command₂ t₂
  have hlen : (sendCommand 5 ctx₂ command₂ (some t₂)).slept.length = 0 := by omega
  refine ⟨h6, hs, ?_, ?_⟩
  · rw [hcnt5, hatt, hlen]
  · rw [hcnt5]
    exact List.length_eq_zero.1 hlen

/-- C2, witness: two consecutive calls on the sample session that always reports
connect-failed. -/
theorem sendCommand_retry_budget_process_wide_witness :
    AlwaysConnectFailed connectFailedSession ∧
      (sendCommand
        (sendCommand 0 connectFailedSession "GETINFO version" (some emptyTransaction)).cnt
        connectFailedSession "GETINFO version" (some emptyTransaction)).attempts
          connectFailedSession = 1 :=
  ⟨fun _ => rfl,
    (sendCommand_retry_budget_process_wide.2 connectFailedSession connectFailedSession
      "GETINFO version" "GETINFO version" emptyTransaction emptyTransaction
      (fun _ => rfl) (fun _ => rfl)).2.2.1⟩

/-- C2, counterexample: of two consecutive calls on the sample session that always
reports connect-failed, the second does not make the same number of attempts as the
first, nor the same sleeps. -/
theorem sendCommand_second_call_differs :
    AlwaysConnectFailed connectFailedSession ∧
      ¬ ((sendCommand
          (sendCommand 0 connectFailedSession "GETINFO version" (some emptyTransaction)).cnt
          connectFailedSession "GETINFO version" (some emptyTransaction)).attempts
            connectFailedSession =
          (sendCommand 0 connectFailedSession "GETINFO version" (some emptyTransaction)).attempts
            connectFailedSession ∧
        (sendCommand
          (sendCommand 0 connectFailedSession "GETINFO version" (some emptyTransaction)).cnt
          connectFailedSession "GETINFO version" (some emptyTransaction)).slept =
          (sendCommand 0 connectFailedSession "GETINFO version" (some emptyTransaction)).slept) :=
  ⟨fun _ => rfl, by decide⟩

/-- C3: whenever the error code a `sendCommand` call ends with lies in the range
`GPG_ERR_ASS_GENERAL` to `GPG_ERR_ASS_UNKNOWN_INQUIRE` (both ends included), the
session handle passed in is empty after the call and no transaction is returned. -/
theorem sendCommand_protocol_error_resets_handle (cnt : Nat) (ctx : Context) (command : String)
    (transaction : Option AssuanTransaction)
    (h : GPG_ERR_ASS_GENERAL ≤ (sendCommand cnt ctx command transaction).err.code ∧
      (sendCommand cnt ctx command transaction).err.code ≤ GPG_ERR_ASS_UNKNOWN_INQUIRE) :
    (sendCommand cnt ctx command transaction).context = none ∧
      (sendCommand cnt ctx command transaction).transaction = none := by
  refine ⟨?_, ?_⟩
  · have h' : InAssuanRange (sendCommand cnt ctx command transaction).err.code := h
    rw [sendCommand_context, if_pos h']
  · apply sendCommand_transaction_of_ne
    rw [← sendCommand_err]
    have := h.1
    simp only [GPG_ERR_ASS_GENERAL] at this
    omega

/-- C3, witness: the theorem at the sample session that reports `GPG_ERR_ASS_GENERAL`. -/
theorem sendCommand_protocol_error_resets_handle_witness :
    (GPG_ERR_ASS_GENERAL ≤
        (sendCommand 0 protocolErrorSession "SCD SERIALNO" (some emptyTransaction)).err.code ∧
      (sendCommand 0 protocolErrorSession "SCD SERIALNO" (some emptyTransaction)).err.code ≤
        GPG_ERR_ASS_UNKNOWN_INQUIRE) ∧
      (sendCommand 0 protocolErrorSession "SCD SERIALNO" (some emptyTransaction)).context = none ∧
      (sendCommand 0 protocolErrorSession "SCD SERIALNO" (some emptyTransaction)).transaction
        = none :=
  ⟨by decide,
    sendCommand_protocol_error_resets_handle 0 protocolErrorSession "SCD SERIALNO"
      (some emptyTransaction) (by decide)⟩


theorem sleeps_sum_le (cnt m : Nat) (h : cnt + m ≤ 5) :
    ((List.range m).map (fun k => 250 * (cnt + k + 1))).sum ≤ 3750 := by
  have hm : m ≤ 5 := by omega
  have hc : cnt ≤ 5 := by omega
  interval_cases m <;> interval_cases cnt <;> first | omega | decide

/-- C4 (as amended): the derived accessors receive the session handle by value
(`sendStatusCommand` by const reference, copying it for `sendStatusLinesCommand`), so
after `sendDataCommand`, `sendStatusLinesCommand` or `sendStatusCommand` the handle held
by the caller is never empty, whatever the error; when the call ends with an error
code in the Assuan protocol-error range it is the accessor's own copy of the handle
that is empty. -/
theorem accessors_reset_only_their_copy (cnt : Nat) (ctx : Context) (command : String) :
    ((sendDataCommand cnt ctx command).callerContext.isSome = true ∧
      (sendStatusLinesCommand cnt ctx command).callerContext.isSome = true ∧
      (sendStatusCommand cnt ctx command).callerContext.isSome = true) ∧
    (InAssuanRange (sendDataCommand cnt ctx command).err.code →
      (sendDataCommand cnt ctx command).localContext = none) ∧
    (InAssuanRange (sendStatusLinesCommand cnt ctx command).err.code →
      (sendStatusLinesCommand cnt ctx command).localContext = none) ∧
    (InAssuanRange (sendStatusCommand cnt ctx command).err.code →
      (sendStatusCommand cnt ctx command).localContext = none) := by
  refine ⟨⟨rfl, rfl, rfl⟩, ?_, ?_, ?_⟩ <;>
  · intro h
    show (sendCommand cnt ctx command (some { data := "", statusLines := [] })).context = none
    rw [sendCommand_context]
    exact if_pos h

/-- C4, witness: the sample session that reports `GPG_ERR_ASS_GENERAL`, through
`sendStatusCommand`. -/
theorem accessors_reset_only_their_copy_witness :
    InAssuanRange (sendStatusCommand 0 protocolErrorSession "SCD SERIALNO").err.code ∧
      (sendStatusCommand 0 protocolErrorSession "SCD SERIALNO").localContext = none :=
  ⟨by decide,
    (accessors_reset_only_their_copy 0 protocolErrorSession "SCD SERIALNO").2.2.2 (by decide)⟩

/-- C4, counterexample: on the sample session that reports `GPG_ERR_ASS_GENERAL`, each
of the three accessors ends with an error code in the Assuan protocol-error range and
the handle held by its caller is not empty. -/
theorem accessors_leave_caller_handle :
    (InAssuanRange (sendDataCommand 0 protocolErrorSession "SCD SERIALNO").err.code ∧
      (sendDataCommand 0 protocolErrorSession "SCD SERIALNO").callerContext.isSome = true) ∧
    (InAssuanRange (sendStatusLinesCommand 0 protocolErrorSession "SCD SERIALNO").err.code ∧
      (sendStatusLinesCommand 0 protocolErrorSession "SCD SERIALNO").callerContext.isSome
        = true) ∧
    (InAssuanRange (sendStatusCommand 0 protocolErrorSession "SCD SERIALNO").err.code ∧
      (sendStatusCommand 0 protocolErrorSession "SCD SERIALNO").callerContext.isSome = true) := by
  decide

/-- C5: when the first attempt ends with a non-zero error code other than
connect-failed, `sendCommand` makes exactly one attempt, does not sleep, returns no
transaction, and reports an error with exactly that code. -/
theorem sendCommand_other_error_fails_at_once (cnt : Nat) (ctx : Context) (command : String)
    (t : AssuanTransaction)
    (h0 : (ctx.respond (command :: ctx.history)).err.code ≠ 0)
    (hcf : (ctx.respond (command :: ctx.history)).err.code ≠ GPG_ERR_ASS_CONNECT_FAILED) :
    (sendCommand cnt ctx command (some t)).attempts ctx = 1 ∧
      (sendCommand cnt ctx command (some t)).slept = [] ∧
      (sendCommand cnt ctx command (some t)).transaction = none ∧
      (sendCommand cnt ctx command (some t)).err.code =
        (ctx.respond (command :: ctx.history)).err.code := by
  have hexit : loopExit cnt ctx command (some t) =
      { err := (ctx.assuanTransact command (some t)).1, cnt := cnt,
        context := (ctx.assuanTransact command (some t)).2, slept := [] } := by
    unfold loopExit
    apply retryLoop_of_guard_false
    simp [retryGuard, Context.assuanTransact, hcf]
  refine ⟨?_, ?_, ?_, ?_⟩
  · rw [SendResult.attempts, sendCommand_history, hexit]
    simp [Context.assuanTransact]
  · rw [sendCommand_slept, hexit]
  · apply sendCommand_transaction_of_ne
    rw [hexit]
    simpa [Context.assuanTransact] using h0
  · rw [sendCommand_err, hexit]
    simp [Context.assuanTransact]

/-- C5, witness: the sample session that refuses every command with code 100. -/
theorem sendCommand_other_error_fails_at_once_witness :
    (sendCommand 0 refusingSession "SCD SERIALNO" (some emptyTransaction)).attempts
        refusingSession = 1 ∧
      (sendCommand 0 refusingSession "SCD SERIALNO" (some emptyTransaction)).slept = [] ∧
      (sendCommand 0 refusingSession "SCD SERIALNO" (some emptyTransaction)).transaction = none ∧
      (sendCommand 0 refusingSession "SCD SERIALNO" (some emptyTransaction)).err.code =
        (refusingSession.respond ("SCD SERIALNO" :: refusingSession.history)).err.code :=
  sendCommand_other_error_fails_at_once 0 refusingSession "SCD SERIALNO" emptyTransaction
    (by decide) (by decide)

/-- C7: `sendCommand` returns a transaction if and only if the error code it reports
is zero. A non-zero code comes with no transaction. When a transaction object was
passed in, the error reported is the one the backend gave to the last attempt, and on
success the returned transaction is the one the context buffered: the object passed
in, with what the backend sent appended, which the context no longer holds. -/
theorem sendCommand_transaction_iff_no_error (cnt : Nat) (ctx : Context) (command : String)
    (transaction : Option AssuanTransaction) :
    ((sendCommand cnt ctx command transaction).transaction.isSome = true ↔
      (sendCommand cnt ctx command transaction).err.code = 0) ∧
    ((sendCommand cnt ctx command transaction).err.code ≠ 0 →
      (sendCommand cnt ctx command transaction).transaction = none) ∧
    (∀ t, transaction = some t →
      (sendCommand cnt ctx command transaction).err =
        (ctx.respond (sendCommand cnt ctx command transaction).session.history).err ∧
      ((sendCommand cnt ctx command transaction).err.code = 0 →
        (sendCommand cnt ctx command transaction).transaction =
          some (buffered ctx command t
            ((sendCommand cnt ctx command transaction).attempts ctx)) ∧
        (sendCommand cnt ctx command transaction).session.lastAssuanTransaction = none)) := by
  have hne : (sendCommand cnt ctx command transaction).err.code ≠ 0 →
      (sendCommand cnt ctx command transaction).transaction = none := by
    intro h
    apply sendCommand_transaction_of_ne
    rwa [← sendCommand_err]
  have hsome : ∀ t, transaction = some t →
      (sendCommand cnt ctx command transaction).err =
        (ctx.respond (sendCommand cnt ctx command transaction).session.history).err ∧
      ((sendCommand cnt ctx command transaction).err.code = 0 →
        (sendCommand cnt ctx command transaction).transaction =
          some (buffered ctx command t
            ((sendCommand cnt ctx command transaction).attempts ctx)) ∧
        (sendCommand cnt ctx command transaction).session.lastAssuanTransaction = none) := by
    intro t ht
    subst ht
    obtain ⟨n, hT⟩ := loopExit_trace cnt ctx command t
    refine ⟨?_, ?_⟩
    · rw [sendCommand_err, sendCommand_history, hT.err, hT.history]
    · intro h
      rw [sendCommand_err] at h
      obtain ⟨h1, h2, _⟩ := sendCommand_transaction_of_eq cnt ctx command (some t) h
      rw [SendResult.attempts, sendCommand_history, hT.history, attemptHistory_length, h1,
        hT.last]
      exact ⟨rfl, h2⟩
  refine ⟨⟨?_, ?_⟩, hne, hsome⟩
  · intro h
    by_contra hc
    rw [hne hc] at h
    exact Bool.false_ne_true h
  · intro h
    cases transaction with
    | none =>
      have := (sendCommand_none cnt ctx command).2.1
      rw [h] at this
      exact absurd this (by decide)
    | some t =>
      rw [((hsome t rfl).2 h).1]
      rfl

/-- C7, witness: the sample session that answers at the third attempt. -/
theorem sendCommand_transaction_iff_no_error_witness :
    (sendCommand 0 slowStartSession "SCD GETATTR FOO" (some emptyTransaction)).transaction =
      some { data := "D", statusLines := [("SERIALNO", "1"), ("FOO", "a"), ("FOO", "b")] } :=
  ((sendCommand_transaction_iff_no_error 0 slowStartSession "SCD GETATTR FOO"
    (some emptyTransaction)).2.2 emptyTransaction rfl).2 (by decide) |>.1.trans (by decide)


/-- C8: the sleeps of one `sendCommand` call follow linear backoff. For the first
command of a process the sleep before the k-th retry is `250 * k` ms (the sleep at
position `k` of the list, counted from 0, is `250 * (k + 1)`), and there are at most 5;
a backend that always reports connect-failed gives exactly 250, 500, 750, 1000,
1250 ms; and for every call, whatever the counter and the backend, the sleeps of the
call add up to at most 3750 ms. -/
theorem sendCommand_linear_backoff :
    (∀ (ctx : Context) (command : String) (transaction : Option AssuanTransaction),
      (sendCommand 0 ctx command transaction).slept =
        (List.range (sendCommand 0 ctx command transaction).slept.length).map
          (fun k => 250 * (k + 1)) ∧
      (sendCommand 0 ctx command transaction).slept.length ≤ 5) ∧
    (∀ (ctx : Context) (command : String) (t : AssuanTransaction),
      AlwaysConnectFailed ctx →
      (sendCommand 0 ctx command (some t)).slept = [250, 500, 750, 1000, 1250]) ∧
    (∀ (cnt : Nat) (ctx : Context) (command : String) (transaction : Option AssuanTransaction),
      (sendCommand cnt ctx command transaction).slept.sum ≤ 3750) := by
  refine ⟨?_, ?_, ?_⟩
  · intro ctx command transaction
    cases transaction with
    | none => simp [(sendCommand_none 0 ctx command).1]
    | some t =>
      refine ⟨?_, (sendCommand_retries 0 ctx command t).1⟩
      have h := sendCommand_slept_eq 0 ctx command t
      simpa using h
  · intro ctx command t h
    exact (sendCommand_always_connect_failed h command t).2.1
  · intro cnt ctx command transaction
    cases transaction with
    | none => simp [(sendCommand_none cnt ctx command).1]
    | some t =>
      have hlen := (sendCommand_retries cnt ctx command t).1
      rw [sendCommand_slept_eq cnt ctx command t]
      by_cases hc : cnt ≤ 5
      · exact sleeps_sum_le cnt _ (by omega)
      · have h0 : (sendCommand cnt ctx command (some t)).slept.length = 0 := by omega
        rw [h0]
        simp

/-- C8, witness: the sample session that always reports connect-failed. -/
theorem sendCommand_linear_backoff_witness :
    (sendCommand 0 connectFailedSession "GETINFO version" (some emptyTransaction)).slept =
      [250, 500, 750, 1000, 1250] :=
  sendCommand_linear_backoff.2.1 connectFailedSession "GETINFO version" emptyTransaction
    (fun _ => rfl)

/-- C9: when `sendCommand` yields no transaction (as it does whenever it fails),
`sendDataCommand` returns the empty string, `sendStatusLinesCommand` the empty sequence
and `sendStatusCommand` the empty string; when it yields a transaction,
`sendDataCommand` returns its data buffer and `sendStatusLinesCommand` its status lines,
in the same order. -/
theorem accessors_follow_transaction (cnt : Nat) (ctx : Context) (command : String) :
    ((sendCommandDefault cnt ctx command).transaction = none →
      (sendDataCommand cnt ctx command).value = "" ∧
      (sendStatusLinesCommand cnt ctx command).value = [] ∧
      (sendStatusCommand cnt ctx command).value = "") ∧
    ((sendCommandDefault cnt ctx command).err.code ≠ 0 →
      (sendCommandDefault cnt ctx command).transaction = none) ∧
    (∀ t, (sendCommandDefault cnt ctx command).transaction = some t →
      (sendDataCommand cnt ctx command).value = t.data ∧
      (sendStatusLinesCommand cnt ctx command).value = t.statusLines) := by
  refine ⟨?_, ?_, ?_⟩
  · intro h
    simp [sendDataCommand, sendStatusLinesCommand, sendStatusCommand, h, scanStatus]
  · intro h
    apply sendCommand_transaction_of_ne
    rw [← sendCommand_err]
    exact h
  · intro t h
    simp [sendDataCommand, sendStatusLinesCommand, h]

/-- C9, witness: the sample session that refuses every command (no transaction) and
the sample session that answers at the third attempt (a transaction). -/
theorem accessors_follow_transaction_witness :
    ((sendDataCommand 0 refusingSession "SCD SERIALNO").value = "" ∧
      (sendStatusLinesCommand 0 refusingSession "SCD SERIALNO").value = [] ∧
      (sendStatusCommand 0 refusingSession "SCD SERIALNO").value = "") ∧
    ((sendDataCommand 0 slowStartSession "SCD GETATTR FOO").value = "D" ∧
      (sendStatusLinesCommand 0 slowStartSession "SCD GETATTR FOO").value =
        [("SERIALNO", "1"), ("FOO", "a"), ("FOO", "b")]) :=
  ⟨(accessors_follow_transaction 0 refusingSession "SCD SERIALNO").1 (by decide),
    (accessors_follow_transaction 0 slowStartSession "SCD GETATTR FOO").2.2
      { data := "D", statusLines := [("SERIALNO", "1"), ("FOO", "a"), ("FOO", "b")] }
      (by decide)⟩


/-! ## The keyword searched by `sendStatusCommand` -/

theorem rfind_none {c : Char} : ∀ {l : List Char}, rfind c l = none → c ∉ l
  | [], _ => by simp
  | x :: xs, h => by
    simp only [rfind] at h
    cases hr : rfind c xs with
    | some i => rw [hr] at h; simp at h
    | none =>
      rw [hr] at h
      have hx : x ≠ c := by
        intro hxc
        simp [hxc] at h
      have := rfind_none hr
      simp only [List.mem_cons, not_or]
      exact ⟨fun e => hx e.symm, this⟩

theorem rfind_some {c : Char} : ∀ {l : List Char} {i : Nat}, rfind c l = some i →
    ∃ pre tok, l = pre ++ c :: tok ∧ c ∉ tok ∧ pre.length = i
  | [], _, h => by simp [rfind] at h
  | x :: xs, i, h => by
    simp only [rfind] at h
    cases hr : rfind c xs with
    | some j =>
      rw [hr] at h
      obtain ⟨pre, tok, hl, hc, hlen⟩ := rfind_some hr
      refine ⟨x :: pre, tok, by rw [hl]; rfl, hc, ?_⟩
      simp only [Option.some.injEq] at h
      simp [hlen, h]
    | none =>
      rw [hr] at h
      by_cases hx : x = c
      · simp only [hx, if_true, Option.some.injEq] at h
        exact ⟨[], xs, by simp [hx], rfind_none hr, by simp [h]⟩
      · simp [hx] at h

theorem takeWhile_ne_append {c : Char} : ∀ (a b : List Char), c ∉ a →
    (a ++ c :: b).takeWhile (fun x => decide (x ≠ c)) = a
  | [], b, _ => by simp
  | x :: a, b, h => by
    simp only [List.mem_cons, not_or] at h
    have hx : decide (x ≠ c) = true := decide_eq_true (fun e => h.1 e.symm)
    rw [List.cons_append, List.takeWhile_cons]
    simp only [hx, if_true]
    rw [takeWhile_ne_append a b h.2]

theorem takeWhile_ne_self {c : Char} : ∀ (a : List Char), c ∉ a →
    a.takeWhile (fun x => decide (x ≠ c)) = a
  | [], _ => by simp
  | x :: a, h => by
    simp only [List.mem_cons, not_or] at h
    have hx : decide (x ≠ c) = true := decide_eq_true (fun e => h.1 e.symm)
    rw [List.takeWhile_cons]
    simp only [hx, if_true]
    rw [takeWhile_ne_self a h.2]

/-- The final token of a command without a space is the command itself. -/
theorem finalToken_of_no_space (command : String) (h : ' ' ∉ command.data) :
    finalToken command = command := by
  unfold finalToken
  rw [takeWhile_ne_self _ (by simpa using h)]
  simp

/-- The final token of a command is what follows its last space. -/
theorem finalToken_of_last_space (command : String) (pre tok : List Char)
    (h : command.data = pre ++ ' ' :: tok) (htok : ' ' ∉ tok) :
    finalToken command = ⟨tok⟩ := by
  unfold finalToken
  have hrev : command.data.reverse = tok.reverse ++ ' ' :: pre.reverse := by
    rw [h]; simp
  rw [hrev, takeWhile_ne_append _ _ (by simpa using htok)]
  simp

/-- The `needle` computed with `rfind` and `substr` is the final token. -/
theorem needle_eq_finalToken (command : String) : needle command = finalToken command := by
  unfold needle
  cases hr : rfind ' ' command.data with
  | none => exact (finalToken_of_no_space command (rfind_none hr)).symm
  | some i =>
    obtain ⟨pre, tok, hl, hc, hlen⟩ := rfind_some hr
    rw [finalToken_of_last_space command pre tok hl hc]
    simp only [hl, ← hlen]
    congr 1
    simp

theorem scanStatus_eq_firstValue (keyword : String) (lines : List (String × String)) :
    scanStatus keyword lines = firstValue keyword lines := by
  induction lines with
  | nil => rfl
  | cons p rest ih =>
    by_cases hp : p.1 = keyword
    · simp [scanStatus, firstValue, hp]
    · simp only [scanStatus, hp, if_false, ih]
      simp [firstValue, List.find?, hp]

theorem firstValue_first_match (keyword value : String) (pre post : List (String × String))
    (h : ∀ p ∈ pre, p.1 ≠ keyword) :
    firstValue keyword (pre ++ (keyword, value) :: post) = value := by
  induction pre with
  | nil => simp [firstValue]
  | cons p pre ih =>
    have hp : p.1 ≠ keyword := h p (List.mem_cons_self _ _)
    have ih' := ih (fun q hq => h q (List.mem_cons_of_mem _ hq))
    simp only [firstValue] at ih' ⊢
    simpa [List.find?, hp] using ih'

theorem firstValue_no_match (keyword : String) (lines : List (String × String))
    (h : ∀ p ∈ lines, p.1 ≠ keyword) : firstValue keyword lines = "" := by
  have : lines.find? (fun p => decide (p.1 = keyword)) = none := by
    rw [List.find?_eq_none]
    intro p hp
    simpa using h p hp
  simp [firstValue, this]

/-- C6: `sendStatusCommand` returns the value of the first status line whose keyword
is the final token of the command (what follows the last space, or the whole command
when it has no space): a status-lines result `pre ++ (token, value) :: post` in which
no keyword of `pre` is the token gives `value`, whatever `post` holds, and a result in
which no keyword is the token gives the empty string. Every sequence of status lines
can be the backend's answer. -/
theorem sendStatusCommand_first_match (cnt : Nat) (ctx : Context) (command : String) :
    (sendStatusCommand cnt ctx command).value =
        firstValue (finalToken command) (sendStatusLinesCommand cnt ctx command).value ∧
    (∀ (pre post : List (String × String)) (value : String),
      (sendStatusLinesCommand cnt ctx command).value =
        pre ++ (finalToken command, value) :: post →
      (∀ p ∈ pre, p.1 ≠ finalToken command) →
      (sendStatusCommand cnt ctx command).value = value) ∧
    ((∀ p ∈ (sendStatusLinesCommand cnt ctx command).value, p.1 ≠ finalToken command) →
      (sendStatusCommand cnt ctx command).value = "") ∧
    (∀ lines : List (String × String), ∃ backend : Context,
      (sendStatusLinesCommand cnt backend command).value = lines) := by
  have hval : (sendStatusCommand cnt ctx command).value =
      firstValue (finalToken command) (sendStatusLinesCommand cnt ctx command).value := by
    rw [← needle_eq_finalToken, ← scanStatus_eq_firstValue]
    rfl
  refine ⟨hval, ?_, ?_, ?_⟩
  · intro pre post value hl hpre
    rw [hval, hl]
    exact firstValue_first_match _ _ _ _ hpre
  · intro h
    rw [hval]
    exact firstValue_no_match _ _ h
  · intro lines
    refine ⟨{ respond := fun _ => { err := ⟨0⟩, data := "", statusLines := lines },
              history := [], lastAssuanTransaction := none }, ?_⟩
    have hexit : ∀ c : Context, c.respond = (fun _ => { err := ⟨0⟩, data := "", statusLines := lines }) →
        (sendCommandDefault cnt c command).transaction = some { data := "", statusLines := lines } := by
      intro c hc
      unfold sendCommandDefault
      have hloop : loopExit cnt c command (some { data := "", statusLines := [] }) =
          { err := (c.assuanTransact command (some { data := "", statusLines := [] })).1,
            cnt := cnt,
            context := (c.assuanTransact command (some { data := "", statusLines := [] })).2,
            slept := [] } := by
        unfold loopExit
        apply retryLoop_of_guard_false
        simp [retryGuard, Context.assuanTransact, hc, GPG_ERR_ASS_CONNECT_FAILED]
      have h0 : (loopExit cnt c command (some { data := "", statusLines := [] })).err.code = 0 := by
        rw [hloop]; simp [Context.assuanTransact, hc]
      rw [(sendCommand_transaction_of_eq cnt c command _ h0).1, hloop]
      simp [Context.assuanTransact, hc]
    have ht := hexit { respond := fun _ => { err := ⟨0⟩, data := "", statusLines := lines },
                       history := [], lastAssuanTransaction := none } rfl
    simp only [sendStatusLinesCommand, ht]

/-- C6, witness: the sample session that answers `SCD GETATTR FOO` with the status
lines `SERIALNO 1`, `FOO a`, `FOO b`: the value of the first `FOO` line is returned. -/
theorem sendStatusCommand_first_match_witness :
    (sendStatusCommand 0 slowStartSession "SCD GETATTR FOO").value = "a" :=
  (sendStatusCommand_first_match 0 slowStartSession "SCD GETATTR FOO").2.1
    [("SERIALNO", "1")] [("FOO", "b")] "a" (by decide) (by decide)

end Assuan

/-! ## The override entries -/

namespace QMap

theorem find_insert_self {κ ν : Type} [DecidableEq κ] (k : κ) (v : ν) :
    ∀ m : QMap κ ν, find (insert m k v) k = some v
  | [] => by simp [insert, find]
  | (k', v') :: m => by
    by_cases h : k' = k
    · simp [insert, find, h]
    · simp [insert, find, h, find_insert_self k v m]

theorem value_insert_self {κ κ' ν : Type} [DecidableEq κ] (k : κ) (v : QMap κ' ν)
    (m : QMap κ (QMap κ' ν)) : value (insert m k v) k = v := by
  simp [value, find_insert_self]

end QMap

namespace TestKeyResolver

theorem formatOfToken_eq_none (fmtStr : String) :
    formatOfToken fmtStr = none ↔ fmtStr ∉ formatTokens := by
  unfold formatOfToken formatTokens
  split_ifs <;> simp_all

theorem overrideStep_accepts (toLower : String → String) (overrides : Overrides)
    (oride : String) (h : ¬ Malformed toLower oride) :
    ∃ fmt, overrideStep toLower overrides oride =
      .ok (QMap.insert overrides fmt
        (QMap.insert (QMap.value overrides fmt) ((split oride ':').getD 0 "")
          (split ((split oride ':').getD 1 "") ','))) := by
  unfold Malformed at h
  simp only [not_or] at h
  obtain ⟨h2, h3, htok⟩ := h
  have hlen : ¬ ((split oride ':').length < 2 ∨ (split oride ':').length > 3) := by
    rintro (h | h)
    · exact h2 h
    · exact h3 h
  unfold overrideStep
  simp only [hlen, if_false]
  by_cases h3' : (split oride ':').length = 3
  · simp only [h3', if_true]
    cases hf : formatOfToken (toLower ((split oride ':').getD 2 "")) with
    | none => exact absurd ⟨h3', (formatOfToken_eq_none _).1 hf⟩ htok
    | some fmt => exact ⟨fmt, rfl⟩
  · simp only [h3', if_false]
    exact ⟨_, rfl⟩

theorem overrideStep_rejects (toLower : String → String) (overrides : Overrides)
    (oride : String) (h : Malformed toLower oride) :
    overrideStep toLower overrides oride = .error 1 := by
  unfold Malformed at h
  unfold overrideStep
  rcases h with h | h | ⟨h3, htok⟩
  · simp only [h, true_or, if_true]
  · simp only [h, or_true, if_true]
  · have hlen : ¬ ((split oride ':').length < 2 ∨ (split oride ':').length > 3) := by omega
    simp only [hlen, if_false]
    simp only [h3, if_true, (formatOfToken_eq_none _).2 htok]

theorem overrideStep_error_iff (toLower : String → String) (overrides : Overrides)
    (oride : String) :
    overrideStep toLower overrides oride = .error 1 ↔ Malformed toLower oride := by
  constructor
  · intro h
    by_contra hm
    obtain ⟨fmt, hok⟩ := overrideStep_accepts toLower overrides oride hm
    rw [hok] at h
    injection h
  · exact overrideStep_rejects toLower overrides oride

theorem overrideStep_status (toLower : String → String) (overrides : Overrides)
    (oride : String) (status : Nat)
    (h : overrideStep toLower overrides oride = .error status) : status = 1 := by
  by_cases hm : Malformed toLower oride
  · rw [overrideStep_rejects toLower overrides oride hm] at h
    injection h with h
    exact h.symm
  · obtain ⟨fmt, hok⟩ := overrideStep_accepts toLower overrides oride hm
    rw [hok] at h
    injection h

theorem overrideLoop_error_iff (toLower : String → String) (orides : List String) :
    ∀ overrides : Overrides,
      overrideLoop toLower overrides orides = .error 1 ↔
        ∃ oride ∈ orides, Malformed toLower oride := by
  induction orides with
  | nil => intro overrides; simp [overrideLoop]
  | cons oride rest ih =>
    intro overrides
    simp only [overrideLoop, List.mem_cons, exists_eq_or_imp]
    cases hs : overrideStep toLower overrides oride with
    | error status =>
      have h1 := overrideStep_status toLower overrides oride status hs
      subst h1
      simp only [true_iff]
      exact Or.inl ((overrideStep_error_iff toLower overrides oride).1 hs)
    | ok overrides' =>
      have hm : ¬ Malformed toLower oride := by
        rw [← overrideStep_error_iff toLower overrides oride, hs]; simp
      simp only [hm, false_or]
      exact ih overrides'

/-- C10: an override entry is rejected (the harness exits with status 1 before the
resolver is started) if and only if it is malformed: splitting it on `:` gives fewer
than 2 or more than 3 fields, or it has 3 fields and the third, lower-cased, is not
one of the seven format tokens. Every other entry is accepted: the table gets, under
some format, the entry's mailbox with the entry's fingerprints. With at least one
recipient, the harness exits with status 1 before the resolver is started if and
only if one of the entries is malformed. -/
theorem override_rejected_iff_malformed (toLower : String → String) :
    (∀ (overrides : Overrides) (oride : String),
      overrideStep toLower overrides oride = .error 1 ↔ Malformed toLower oride) ∧
    (∀ (overrides : Overrides) (oride : String), ¬ Malformed toLower oride →
      ∃ overrides' fmt, overrideStep toLower overrides oride = .ok overrides' ∧
        QMap.find (QMap.value overrides' fmt) ((split oride ':').getD 0 "") =
          some (split ((split oride ':').getD 1 "") ',')) ∧
    (∀ (recps orides : List String), recps ≠ [] →
      (setup toLower recps orides = .error 1 ↔ ∃ oride ∈ orides, Malformed toLower oride)) := by
  refine ⟨overrideStep_error_iff toLower, ?_, ?_⟩
  · intro overrides oride h
    obtain ⟨fmt, hfmt⟩ := overrideStep_accepts toLower overrides oride h
    refine ⟨_, fmt, hfmt, ?_⟩
    rw [QMap.value_insert_self, QMap.find_insert_self]
  · intro recps orides hne
    have hlen : ¬ recps.length < 1 := by
      cases recps with
      | nil => exact absurd rfl hne
      | cons r rs => simp
    simp only [setup, hlen, if_false]
    exact overrideLoop_error_iff toLower orides []

/-- C10, witness: the entry `a@example.org:FPR1,FPR2:SMIME` is accepted, the entry
`a@example.org:FPR1:pgp` ends the harness with status 1. -/
theorem override_rejected_iff_malformed_witness :
    overrideStep asciiLower [] "a@example.org:FPR1,FPR2:SMIME" =
        .ok [(.SMIMEFormat, [("a@example.org", ["FPR1", "FPR2"])])] ∧
      Malformed asciiLower "a@example.org:FPR1:pgp" ∧
      setup asciiLower ["b@example.org"] ["a@example.org:FPR1,FPR2:SMIME",
        "a@example.org:FPR1:pgp"] = .error 1 :=
  ⟨by decide,
    ((override_rejected_iff_malformed asciiLower).1 [] "a@example.org:FPR1:pgp").1 (by decide),
    ((override_rejected_iff_malformed asciiLower).2.2 ["b@example.org"]
      ["a@example.org:FPR1,FPR2:SMIME", "a@example.org:FPR1:pgp"] (by decide)).2
      ⟨"a@example.org:FPR1:pgp", by decide,
        ((override_rejected_iff_malformed asciiLower).1 [] "a@example.org:FPR1:pgp").1
          (by decide)⟩⟩

end TestKeyResolver

namespace TestKeyResolver

/-! ## Splitting and the format field -/

theorem splitChars_ne_nil (sep : Char) : ∀ l : List Char, splitChars sep l ≠ []
  | [] => by simp [splitChars]
  | c :: cs => by
    by_cases h : c = sep
    · simp [splitChars, h]
    · have := splitChars_ne_nil sep cs
      cases hs : splitChars sep cs with
      | nil => exact absurd hs this
      | cons part parts => simp [splitChars, h, hs]

theorem splitChars_append_sep (sep : Char) (b : List Char) : ∀ a : List Char,
    splitChars sep (a ++ sep :: b) = splitChars sep a ++ splitChars sep b
  | [] => by simp [splitChars]
  | c :: a => by
    have ih := splitChars_append_sep sep b a
    by_cases h : c = sep
    · simp [splitChars, h, ih]
    · cases hs : splitChars sep a with
      | nil => exact absurd hs (splitChars_ne_nil sep a)
      | cons part parts =>
        rw [hs] at ih
        simp [splitChars, h, ih, hs]

theorem split_append_auto (oride : String) :
    split (oride ++ ":auto") ':' = split oride ':' ++ ["auto"] := by
  have h : (oride ++ ":auto").data = oride.data ++ ':' :: "auto".data := by
    simp [String.data_append]
  unfold split
  rw [h, splitChars_append_sep]
  simp
  decide

theorem overrideStep_eq_entryOf (toLower : String → String) (overrides : Overrides)
    (oride : String) :
    overrideStep toLower overrides oride =
      match entryOf toLower oride with
      | none => .error 1
      | some entry =>
        .ok (QMap.insert overrides entry.1
          (QMap.insert (QMap.value overrides entry.1) entry.2.1 entry.2.2)) := by
  unfold overrideStep entryOf
  by_cases h2 : (split oride ':').length = 2
  · have hlen : ¬ ((split oride ':').length < 2 ∨ (split oride ':').length > 3) := by omega
    have h3 : ¬ (split oride ':').length = 3 := by omega
    simp only [hlen, if_false, h3]
    simp only [h2, if_true]
  · by_cases h3 : (split oride ':').length = 3
    · have hlen : ¬ ((split oride ':').length < 2 ∨ (split oride ':').length > 3) := by omega
      simp only [hlen, if_false, h2]
      simp only [h3, if_true]
      cases formatOfToken (toLower ((split oride ':').getD 2 "")) <;> rfl
    · have hlen : (split oride ':').length < 2 ∨ (split oride ':').length > 3 := by omega
      simp only [hlen, if_true]
      simp only [h2, h3, if_false]

theorem formatOfToken_of_mem {token : String} {fmt : CryptoMessageFormat}
    (h : (token, fmt) ∈ tokenFormats) : formatOfToken token = some fmt := by
  simp only [tokenFormats, List.mem_cons, Prod.mk.injEq, List.mem_singleton, List.not_mem_nil,
    or_false] at h
  rcases h with h | h | h | h | h | h | h <;> obtain ⟨rfl, rfl⟩ := h <;> decide

/-- The letters of the seven format tokens. -/
theorem tokenLetters_lower : ∀ t ∈ ("inlopgmesquayt".data : List Char),
    t.toLower = t ∧ t.toUpper.toLower = t := by
  decide

theorem map_toLower_of_variant : ∀ (s token : List Char),
    (∀ t ∈ token, t ∈ ("inlopgmesquayt".data : List Char)) →
    List.Forall₂ (fun c t => c = t ∨ c = t.toUpper) s token → s.map Char.toLower = token
  | _, _, _, .nil => rfl
  | c :: s, t :: token, hmem, .cons hct hrest => by
    have ht := tokenLetters_lower t (hmem t (List.mem_cons_self _ _))
    have ih := map_toLower_of_variant s token
      (fun x hx => hmem x (List.mem_cons_of_mem _ hx)) hrest
    rw [List.map_cons, ih]
    rcases hct with rfl | rfl
    · rw [ht.1]
    · rw [ht.2]

theorem asciiLower_of_variant (s token : String) (hmem : token ∈ formatTokens)
    (h : CaseVariant s token) : asciiLower s = token := by
  have hl : ∀ t ∈ token.data, t ∈ ("inlopgmesquayt".data : List Char) := by
    simp only [formatTokens, List.mem_cons, List.mem_singleton, List.not_mem_nil, or_false] at hmem
    rcases hmem with rfl | rfl | rfl | rfl | rfl | rfl | rfl <;> decide
  unfold asciiLower
  rw [map_toLower_of_variant s.data token.data hl h]

end TestKeyResolver

namespace TestKeyResolver

/-- C11: the format under which an accepted entry is stored is decided by the
lower-cased third field. For each of the seven tokens, an entry with three fields whose
third field lower-cases to the token is stored under the format the token names; the
seven formats are pairwise distinct; a token written in any letter case lower-cases to
the token; and an entry with two fields (no format field) is stored exactly as the same
entry with `:auto` appended, under `AutoFormat`. -/
theorem override_format_case_insensitive (toLower : String → String) :
    (∀ (overrides : Overrides) (oride token : String) (fmt : CryptoMessageFormat),
      (token, fmt) ∈ tokenFormats → (split oride ':').length = 3 →
      toLower ((split oride ':').getD 2 "") = token →
      overrideStep toLower overrides oride =
        .ok (QMap.insert overrides fmt
          (QMap.insert (QMap.value overrides fmt) ((split oride ':').getD 0 "")
            (split ((split oride ':').getD 1 "") ',')))) ∧
    ((tokenFormats.map Prod.snd).Nodup ∧ tokenFormats.map Prod.fst = formatTokens) ∧
    (∀ s token : String, token ∈ formatTokens → CaseVariant s token → asciiLower s = token) ∧
    (toLower "auto" = "auto" → ∀ (overrides : Overrides) (oride : String),
      (split oride ':').length = 2 →
      overrideStep toLower overrides oride = overrideStep toLower overrides (oride ++ ":auto") ∧
      overrideStep toLower overrides oride =
        .ok (QMap.insert overrides .AutoFormat
          (QMap.insert (QMap.value overrides .AutoFormat) ((split oride ':').getD 0 "")
            (split ((split oride ':').getD 1 "") ',')))) := by
  refine ⟨?_, ⟨by decide, by decide⟩, asciiLower_of_variant, ?_⟩
  · intro overrides oride token fmt hmem h3 htok
    have h2 : ¬ (split oride ':').length = 2 := by omega
    rw [overrideStep_eq_entryOf]
    unfold entryOf
    rw [if_neg h2, if_pos h3, htok, formatOfToken_of_mem hmem]
  · intro hauto overrides oride h2
    have hstep : overrideStep toLower overrides oride =
        .ok (QMap.insert overrides .AutoFormat
          (QMap.insert (QMap.value overrides .AutoFormat) ((split oride ':').getD 0 "")
            (split ((split oride ':').getD 1 "") ','))) := by
      rw [overrideStep_eq_entryOf]
      unfold entryOf
      rw [if_pos h2]
    refine ⟨?_, hstep⟩
    rw [hstep, overrideStep_eq_entryOf]
    obtain ⟨a, b, hab⟩ : ∃ a b, split oride ':' = [a, b] := by
      match hs : split oride ':', h2 with
      | [a, b], _ => exact ⟨a, b, rfl⟩
    have hsp : split (oride ++ ":auto") ':' = [a, b, "auto"] := by
      rw [split_append_auto, hab]; rfl
    unfold entryOf
    rw [hsp, hab]
    have hf : formatOfToken (toLower "auto") = some .AutoFormat := by
      rw [hauto]; decide
    simp [hf]

/-- C11, witness: entries whose format field is written in mixed case, and an entry
without a format field. -/
theorem override_format_case_insensitive_witness :
    overrideStep asciiLower [] "a@example.org:FPR1:SMimeOpaque" =
        .ok [(.SMIMEOpaqueFormat, [("a@example.org", ["FPR1"])])] ∧
      asciiLower "AnyOpenPGP" = "anyopenpgp" ∧
      overrideStep asciiLower [] "a@example.org:FPR1" =
        overrideStep asciiLower [] ("a@example.org:FPR1" ++ ":auto") :=
  ⟨((override_format_case_insensitive asciiLower).1 [] "a@example.org:FPR1:SMimeOpaque"
      "smimeopaque" .SMIMEOpaqueFormat (by decide) (by decide) (by decide)).trans (by decide),
    (override_format_case_insensitive asciiLower).2.2.1 "AnyOpenPGP" "anyopenpgp" (by decide)
      (by unfold CaseVariant; decide),
    ((override_format_case_insensitive asciiLower).2.2.2 (by decide) []
      "a@example.org:FPR1" (by decide)).1⟩

end TestKeyResolver

namespace TestKeyResolver

/-! ## The fingerprints of an entry -/

theorem splitChars_cons_sep (sep : Char) (cs : List Char) :
    splitChars sep (sep :: cs) = [] :: splitChars sep cs := by
  simp [splitChars]

theorem splitChars_cons_ne {sep c : Char} {cs part : List Char} {parts : List (List Char)}
    (h : c ≠ sep) (hs : splitChars sep cs = part :: parts) :
    splitChars sep (c :: cs) = (c :: part) :: parts := by
  simp [splitChars, h, hs]

theorem joinChars_splitChars (sep : Char) : ∀ l : List Char,
    joinChars sep (splitChars sep l) = l
  | [] => rfl
  | c :: cs => by
    have ih := joinChars_splitChars sep cs
    cases hs : splitChars sep cs with
    | nil => exact absurd hs (splitChars_ne_nil sep cs)
    | cons part parts =>
      rw [hs] at ih
      by_cases h : c = sep
      · subst h
        rw [splitChars_cons_sep, hs]
        simp only [joinChars, List.nil_append]
        rw [ih]
      · rw [splitChars_cons_ne h hs]
        cases parts with
        | nil =>
          simp only [joinChars] at ih ⊢
          rw [ih]
        | cons next parts =>
          simp only [joinChars] at ih ⊢
          rw [List.cons_append, ih]

theorem splitChars_no_sep (sep : Char) : ∀ l : List Char,
    ∀ part ∈ splitChars sep l, sep ∉ part
  | [] => by simp [splitChars]
  | c :: cs => by
    have ih := splitChars_no_sep sep cs
    cases hs : splitChars sep cs with
    | nil => exact absurd hs (splitChars_ne_nil sep cs)
    | cons part parts =>
      rw [hs] at ih
      by_cases h : c = sep
      · subst h
        rw [splitChars_cons_sep, hs]
        intro p hp
        rcases List.mem_cons.1 hp with rfl | hp
        · simp
        · exact ih p hp
      · rw [splitChars_cons_ne h hs]
        intro p hp
        rcases List.mem_cons.1 hp with rfl | hp
        · intro hmem
          rcases List.mem_cons.1 hmem with e | e
          · exact h e.symm
          · exact ih part (List.mem_cons_self _ _) e
        · exact ih p (List.mem_cons_of_mem _ hp)

theorem splitChars_head (sep : Char) : ∀ l : List Char,
    (splitChars sep l).head? = some (l.takeWhile (fun c => decide (c ≠ sep)))
  | [] => rfl
  | c :: cs => by
    have ih := splitChars_head sep cs
    cases hs : splitChars sep cs with
    | nil => exact absurd hs (splitChars_ne_nil sep cs)
    | cons part parts =>
      rw [hs] at ih
      by_cases h : c = sep
      · have hd : decide (c ≠ sep) = false := decide_eq_false (not_not.2 h)
        rw [List.takeWhile_cons, hd, h, splitChars_cons_sep]
        rfl
      · have hd : decide (c ≠ sep) = true := decide_eq_true h
        rw [List.takeWhile_cons, hd, splitChars_cons_ne h hs]
        simp only [List.head?_cons, Option.some.injEq] at ih
        simp only [List.head?_cons, if_true, ih]

theorem join_split (s : String) (sep : Char) : join (split s sep) sep = s := by
  unfold join split
  have : List.map String.data (List.map String.mk (splitChars sep s.data)) =
      splitChars sep s.data := by
    rw [List.map_map]
    exact List.map_id _
  rw [this, joinChars_splitChars]

/-- C12: for every accepted override entry, the fingerprints stored for its format and
mailbox are the parts of the second field between its commas, in the order of the
text: none of them holds a comma, the first of them is the text of the second field
up to its first comma, and joining them with `,` gives back the second field. -/
theorem override_fingerprints_in_order (toLower : String → String) (overrides : Overrides)
    (oride : String) (h : ¬ Malformed toLower oride) :
    ∃ overrides' fmt fingerprints,
      overrideStep toLower overrides oride = .ok overrides' ∧
      lookup overrides' fmt ((split oride ':').getD 0 "") = some fingerprints ∧
      fingerprints = split ((split oride ':').getD 1 "") ',' ∧
      (∀ part ∈ fingerprints, ',' ∉ part.data) ∧
      fingerprints.head? =
        some ⟨((split oride ':').getD 1 "").data.takeWhile (fun c => decide (c ≠ ','))⟩ ∧
      join fingerprints ',' = (split oride ':').getD 1 "" := by
  obtain ⟨fmt, hfmt⟩ := overrideStep_accepts toLower overrides oride h
  refine ⟨_, fmt, _, hfmt, ?_, rfl, ?_, ?_, join_split _ _⟩
  · unfold lookup
    rw [QMap.value_insert_self, QMap.find_insert_self]
  · intro part hpart
    unfold split at hpart
    obtain ⟨chars, hchars, rfl⟩ := List.mem_map.1 hpart
    exact splitChars_no_sep ',' _ chars hchars
  · unfold split
    rw [List.head?_map, splitChars_head]
    rfl

/-- C12, witness: the entry `a@example.org:FPR2,FPR1:smime`. -/
theorem override_fingerprints_in_order_witness :
    ∃ overrides' fmt fingerprints,
      overrideStep asciiLower [] "a@example.org:FPR2,FPR1:smime" = .ok overrides' ∧
      lookup overrides' fmt ((split "a@example.org:FPR2,FPR1:smime" ':').getD 0 "") =
        some fingerprints ∧
      fingerprints = split ((split "a@example.org:FPR2,FPR1:smime" ':').getD 1 "") ',' ∧
      (∀ part ∈ fingerprints, ',' ∉ part.data) ∧
      fingerprints.head? =
        some ⟨((split "a@example.org:FPR2,FPR1:smime" ':').getD 1 "").data.takeWhile
          (fun c => decide (c ≠ ','))⟩ ∧
      join fingerprints ',' = (split "a@example.org:FPR2,FPR1:smime" ':').getD 1 "" :=
  override_fingerprints_in_order asciiLower [] "a@example.org:FPR2,FPR1:smime"
    (by unfold Malformed; decide)

end TestKeyResolver


namespace QMap

theorem find_insert_other {κ ν : Type} [DecidableEq κ] {k k' : κ} (v : ν) (h : k' ≠ k) :
    ∀ m : QMap κ ν, find (insert m k v) k' = find m k'
  | [] => by simp [insert, find, Ne.symm h]
  | (k₀, v₀) :: m => by
    by_cases h0 : k₀ = k
    · subst h0
      simp [insert, find, Ne.symm h]
    · simp only [insert, if_neg h0, find]
      by_cases h1 : k₀ = k'
      · simp only [if_pos h1]
      · simp only [if_neg h1]
        exact find_insert_other v h m

theorem value_insert_other {κ κ' ν : Type} [DecidableEq κ] {k k' : κ} (v : QMap κ' ν)
    (h : k' ≠ k) (m : QMap κ (QMap κ' ν)) : value (insert m k v) k' = value m k' := by
  simp [value, find_insert_other v h]

end QMap

namespace TestKeyResolver

/-! ## The table built from a list of entries -/

theorem lookup_insert (overrides : Overrides) (fmt fmt' : CryptoMessageFormat)
    (mailbox mailbox' : String) (fingerprints : List String) :
    lookup (QMap.insert overrides fmt
        (QMap.insert (QMap.value overrides fmt) mailbox fingerprints)) fmt' mailbox' =
      if fmt' = fmt ∧ mailbox' = mailbox then some fingerprints
      else lookup overrides fmt' mailbox' := by
  unfold lookup
  by_cases hf : fmt' = fmt
  · subst hf
    rw [QMap.value_insert_self]
    by_cases hm : mailbox' = mailbox
    · subst hm
      rw [QMap.find_insert_self, if_pos ⟨rfl, rfl⟩]
    · rw [QMap.find_insert_other _ hm, if_neg (fun h => hm h.2)]
  · rw [QMap.value_insert_other _ hf, if_neg (fun h => hf h.1)]

theorem entryOf_isSome_of_accepted (toLower : String → String) (oride : String)
    (h : ¬ Malformed toLower oride) : ∃ entry, entryOf toLower oride = some entry := by
  obtain ⟨fmt, hok⟩ := overrideStep_accepts toLower [] oride h
  rw [overrideStep_eq_entryOf] at hok
  cases he : entryOf toLower oride with
  | none => rw [he] at hok; injection hok
  | some entry => exact ⟨entry, rfl⟩

theorem lastStored_cons (fmt : CryptoMessageFormat) (mailbox : String)
    (entry : CryptoMessageFormat × String × List String)
    (rest : List (CryptoMessageFormat × String × List String)) :
    lastStored fmt mailbox (entry :: rest) =
      match lastStored fmt mailbox rest with
      | some fingerprints => some fingerprints
      | none => if entry.1 = fmt ∧ entry.2.1 = mailbox then some entry.2.2 else none := rfl

theorem overrideLoop_lookup (toLower : String → String) : ∀ (orides : List String)
    (overrides : Overrides), (∀ oride ∈ orides, ¬ Malformed toLower oride) →
    ∃ overrides', overrideLoop toLower overrides orides = .ok overrides' ∧
      ∀ fmt mailbox, lookup overrides' fmt mailbox =
        match lastStored fmt mailbox (orides.filterMap (entryOf toLower)) with
        | some fingerprints => some fingerprints
        | none => lookup overrides fmt mailbox
  | [], overrides, _ => ⟨overrides, rfl, fun _ _ => rfl⟩
  | oride :: rest, overrides, h => by
    obtain ⟨entry, he⟩ := entryOf_isSome_of_accepted toLower oride
      (h oride (List.mem_cons_self _ _))
    have hstep := overrideStep_eq_entryOf toLower overrides oride
    rw [he] at hstep
    obtain ⟨overrides', hloop, hlook⟩ := overrideLoop_lookup toLower rest
      (QMap.insert overrides entry.1
        (QMap.insert (QMap.value overrides entry.1) entry.2.1 entry.2.2))
      (fun o ho => h o (List.mem_cons_of_mem _ ho))
    refine ⟨overrides', ?_, ?_⟩
    · simp only [overrideLoop, hstep]
      exact hloop
    · intro fmt mailbox
      rw [hlook fmt mailbox, List.filterMap_cons, he]
      simp only [lastStored_cons]
      cases lastStored fmt mailbox (List.filterMap (entryOf toLower) rest) with
      | some fingerprints => rfl
      | none =>
        simp only [lookup_insert]
        by_cases hp : entry.1 = fmt ∧ entry.2.1 = mailbox
        · rw [if_pos hp, if_pos ⟨hp.1.symm, hp.2.symm⟩]
        · rw [if_neg hp, if_neg (fun hq => hp ⟨hq.1.symm, hq.2.symm⟩)]

theorem lastStored_eq_none_iff (fmt : CryptoMessageFormat) (mailbox : String)
    (entries : List (CryptoMessageFormat × String × List String)) :
    lastStored fmt mailbox entries = none ↔
      ∀ entry ∈ entries, ¬ (entry.1 = fmt ∧ entry.2.1 = mailbox) := by
  induction entries with
  | nil => simp [lastStored]
  | cons entry rest ih =>
    rw [lastStored_cons]
    constructor
    · intro h
      cases hl : lastStored fmt mailbox rest with
      | some fingerprints => rw [hl] at h; injection h
      | none =>
        rw [hl] at h
        have hrest := ih.1 hl
        have hp : ¬ (entry.1 = fmt ∧ entry.2.1 = mailbox) := by
          intro hp
          rw [if_pos hp] at h
          injection h
        intro e he
        rcases List.mem_cons.1 he with rfl | he
        · exact hp
        · exact hrest e he
    · intro h
      have hl := ih.2 (fun e he => h e (List.mem_cons_of_mem _ he))
      rw [hl]
      exact if_neg (h entry (List.mem_cons_self _ _))

theorem lastStored_of_last (fmt : CryptoMessageFormat) (mailbox : String)
    (entry : CryptoMessageFormat × String × List String)
    (post : List (CryptoMessageFormat × String × List String))
    (hentry : entry.1 = fmt ∧ entry.2.1 = mailbox)
    (hpost : ∀ later ∈ post, ¬ (later.1 = fmt ∧ later.2.1 = mailbox))
    (pre : List (CryptoMessageFormat × String × List String)) :
    lastStored fmt mailbox (pre ++ entry :: post) = some entry.2.2 := by
  induction pre with
  | nil =>
    rw [List.nil_append, lastStored_cons, (lastStored_eq_none_iff fmt mailbox post).2 hpost]
    exact if_pos hentry
  | cons first pre ih =>
    rw [List.cons_append, lastStored_cons, ih]

/-- C17: for a list of accepted override entries, processed in order from the empty
table, the loop ends with a table that holds exactly the (format, mailbox) pairs of the
entries, each with the fingerprints of the last entry naming that pair: a later entry
for the same format and mailbox replaces the earlier fingerprints as a whole, and the
pairs of other mailboxes and other formats keep theirs. -/
theorem overrides_last_entry_wins (toLower : String → String) (orides : List String)
    (h : ∀ oride ∈ orides, ¬ Malformed toLower oride) :
    ∃ overrides, overrideLoop toLower [] orides = .ok overrides ∧
      (∀ fmt mailbox, lookup overrides fmt mailbox =
        lastStored fmt mailbox (orides.filterMap (entryOf toLower))) ∧
      (∀ fmt mailbox, lookup overrides fmt mailbox = none ↔
        ∀ entry ∈ orides.filterMap (entryOf toLower),
          ¬ (entry.1 = fmt ∧ entry.2.1 = mailbox)) ∧
      (∀ pre entry post, orides.filterMap (entryOf toLower) = pre ++ entry :: post →
        (∀ later ∈ post, ¬ (later.1 = entry.1 ∧ later.2.1 = entry.2.1)) →
        lookup overrides entry.1 entry.2.1 = some entry.2.2) ∧
      (orides.filterMap (entryOf toLower)).length = orides.length := by
  obtain ⟨overrides, hloop, hlook⟩ := overrideLoop_lookup toLower orides [] h
  have hl : ∀ fmt mailbox, lookup overrides fmt mailbox =
      lastStored fmt mailbox (orides.filterMap (entryOf toLower)) := by
    intro fmt mailbox
    rw [hlook fmt mailbox]
    cases lastStored fmt mailbox (orides.filterMap (entryOf toLower)) <;> rfl
  refine ⟨overrides, hloop, hl, ?_, ?_, ?_⟩
  · intro fmt mailbox
    rw [hl, lastStored_eq_none_iff]
  · intro pre entry post hsplit hpost
    rw [hl, hsplit]
    exact lastStored_of_last entry.1 entry.2.1 entry post ⟨rfl, rfl⟩ hpost pre
  · clear hloop hlook hl
    induction orides with
    | nil => rfl
    | cons oride rest ih =>
      obtain ⟨entry, he⟩ := entryOf_isSome_of_accepted toLower oride
        (h oride (List.mem_cons_self _ _))
      rw [List.filterMap_cons, he]
      simp only [List.length_cons]
      rw [ih (fun o ho => h o (List.mem_cons_of_mem _ ho))]

/-- C17, witness: three accepted entries, the third for the format and mailbox of the
first. -/
theorem overrides_last_entry_wins_witness :
    ∃ overrides,
      overrideLoop asciiLower []
        ["a@example.org:F1,F2:smime", "b@example.org:F3:smime", "a@example.org:F9:SMIME"] =
        .ok overrides ∧
      lookup overrides .SMIMEFormat "a@example.org" = some ["F9"] ∧
      lookup overrides .SMIMEFormat "b@example.org" = some ["F3"] ∧
      lookup overrides .AutoFormat "a@example.org" = none := by
  obtain ⟨overrides, hloop, hl, _⟩ := overrides_last_entry_wins asciiLower
    ["a@example.org:F1,F2:smime", "b@example.org:F3:smime", "a@example.org:F9:SMIME"]
    (by unfold Malformed; decide)
  exact ⟨overrides, hloop, by rw [hl]; decide, by rw [hl]; decide, by rw [hl]; decide⟩

end TestKeyResolver

namespace Assuan

/-! ## Further claims on the transport -/

theorem sendCommand_respond (cnt : Nat) (ctx : Context) (command : String)
    (transaction : Option AssuanTransaction) :
    (sendCommand cnt ctx command transaction).session.respond =
      (loopExit cnt ctx command transaction).context.respond := by
  simp only [sendCommand, loopExit]
  split_ifs <;> rfl

theorem sendCommand_same_session (cnt : Nat) (ctx : Context) (command : String)
    (transaction : Option AssuanTransaction) :
    (sendCommand cnt ctx command transaction).session.respond = ctx.respond ∧
      ∃ n, (sendCommand cnt ctx command transaction).session.history =
        attemptHistory ctx command n := by
  rw [sendCommand_respond, sendCommand_history]
  cases transaction with
  | none =>
    rw [loopExit_none]
    exact ⟨rfl, 0, by simp [attemptHistory]⟩
  | some t =>
    obtain ⟨n, hT⟩ := loopExit_trace cnt ctx command t
    exact ⟨hT.respond, n, hT.history⟩

/-- C13: the value `sendStatusCommand` extracts is a function of the status lines and
of the final token of the command alone: on the same status lines, two commands with
the same final token give the same value, whatever the session and the counter. -/
theorem statusCommand_function_of_lines_and_token :
    (∀ (lines : List (String × String)) (command₁ command₂ : String),
      finalToken command₁ = finalToken command₂ →
      scanStatus (needle command₁) lines = scanStatus (needle command₂) lines) ∧
    (∀ (cnt₁ cnt₂ : Nat) (ctx₁ ctx₂ : Context) (command₁ command₂ : String),
      (sendStatusLinesCommand cnt₁ ctx₁ command₁).value =
        (sendStatusLinesCommand cnt₂ ctx₂ command₂).value →
      finalToken command₁ = finalToken command₂ →
      (sendStatusCommand cnt₁ ctx₁ command₁).value =
        (sendStatusCommand cnt₂ ctx₂ command₂).value) ∧
    (∃ extract : List (String × String) → String → String,
      ∀ (cnt : Nat) (ctx : Context) (command : String),
        (sendStatusCommand cnt ctx command).value =
          extract (sendStatusLinesCommand cnt ctx command).value (finalToken command)) := by
  refine ⟨?_, ?_, ⟨fun lines token => scanStatus token lines, ?_⟩⟩
  · intro lines command₁ command₂ h
    rw [needle_eq_finalToken, needle_eq_finalToken, h]
  · intro cnt₁ cnt₂ ctx₁ ctx₂ command₁ command₂ hlines h
    show scanStatus (needle command₁) (sendStatusLinesCommand cnt₁ ctx₁ command₁).value =
      scanStatus (needle command₂) (sendStatusLinesCommand cnt₂ ctx₂ command₂).value
    rw [needle_eq_finalToken, needle_eq_finalToken, h, hlines]
  · intro cnt ctx command
    show scanStatus (needle command) (sendStatusLinesCommand cnt ctx command).value = _
    rw [needle_eq_finalToken]

/-- C13, witness: the commands `SCD GETATTR FOO` and `GETATTR FOO` on the same status
lines. -/
theorem statusCommand_function_of_lines_and_token_witness :
    scanStatus (needle "SCD GETATTR FOO") [("SERIALNO", "1"), ("FOO", "a"), ("FOO", "b")] =
      scanStatus (needle "GETATTR FOO") [("SERIALNO", "1"), ("FOO", "a"), ("FOO", "b")] :=
  statusCommand_function_of_lines_and_token.1 [("SERIALNO", "1"), ("FOO", "a"), ("FOO", "b")]
    "SCD GETATTR FOO" "GETATTR FOO" (by decide)

/-- C15: the connect-failed code lies in the range `GPG_ERR_ASS_GENERAL` to
`GPG_ERR_ASS_UNKNOWN_INQUIRE`, so a `sendCommand` call that ends with connect-failed
has used up the retries (the counter has reached 5), leaves the handle passed in empty
and returns no transaction; a backend that always reports connect-failed leaves the
handle empty whatever the counter was. -/
theorem sendCommand_connect_failed_resets_handle :
    InAssuanRange GPG_ERR_ASS_CONNECT_FAILED ∧
    (∀ (cnt : Nat) (ctx : Context) (command : String) (transaction : Option AssuanTransaction),
      (sendCommand cnt ctx command transaction).err.code = GPG_ERR_ASS_CONNECT_FAILED →
      5 ≤ (sendCommand cnt ctx command transaction).cnt ∧
      (sendCommand cnt ctx command transaction).context = none ∧
      (sendCommand cnt ctx command transaction).transaction = none) ∧
    (∀ (cnt : Nat) (ctx : Context) (command : String) (t : AssuanTransaction),
      AlwaysConnectFailed ctx → (sendCommand cnt ctx command (some t)).context = none) := by
  have hrange : InAssuanRange GPG_ERR_ASS_CONNECT_FAILED := by decide
  have hreset : ∀ (cnt : Nat) (ctx : Context) (command : String)
      (transaction : Option AssuanTransaction),
      (sendCommand cnt ctx command transaction).err.code = GPG_ERR_ASS_CONNECT_FAILED →
      (sendCommand cnt ctx command transaction).context = none := by
    intro cnt ctx command transaction h
    rw [sendCommand_context, h]
    exact if_pos hrange
  refine ⟨hrange, ?_, ?_⟩
  · intro cnt ctx command transaction h
    refine ⟨?_, hreset cnt ctx command transaction h, ?_⟩
    · have hg := loopExit_guard_false cnt ctx command transaction
      rw [sendCommand_err] at h
      rw [sendCommand_cnt]
      by_contra hlt
      have := (retryGuard_iff _).2 ⟨h, by omega⟩
      rw [hg] at this
      exact Bool.false_ne_true this
    · apply sendCommand_transaction_of_ne
      rw [← sendCommand_err, h]
      decide
  · intro cnt ctx command t h
    apply hreset
    obtain ⟨n, hT⟩ := loopExit_trace cnt ctx command t
    rw [sendCommand_err, hT.err]
    exact h _

/-- C15, witness: the sample session that always reports connect-failed. -/
theorem sendCommand_connect_failed_resets_handle_witness :
    5 ≤ (sendCommand 0 connectFailedSession "GETINFO version" (some emptyTransaction)).cnt ∧
      (sendCommand 0 connectFailedSession "GETINFO version" (some emptyTransaction)).context
        = none ∧
      (sendCommand 0 connectFailedSession "GETINFO version" (some emptyTransaction)).transaction
        = none :=
  sendCommand_connect_failed_resets_handle.2.1 0 connectFailedSession "GETINFO version"
    (some emptyTransaction) (by decide)

/-- C16: `sendCommand` resets the session handle exactly when the error code it ends
with lies in the range `GPG_ERR_ASS_GENERAL` to `GPG_ERR_ASS_UNKNOWN_INQUIRE`. When the
code is zero or lies outside the range, the handle still holds the session it held:
the same backend, with the attempts of this call added to its history. -/
theorem sendCommand_keeps_handle_outside_range (cnt : Nat) (ctx : Context) (command : String)
    (transaction : Option AssuanTransaction) :
    (¬ InAssuanRange (sendCommand cnt ctx command transaction).err.code →
      (sendCommand cnt ctx command transaction).context =
        some (sendCommand cnt ctx command transaction).session) ∧
    ((sendCommand cnt ctx command transaction).err.code = 0 →
      (sendCommand cnt ctx command transaction).context =
        some (sendCommand cnt ctx command transaction).session) ∧
    ((sendCommand cnt ctx command transaction).context = none ↔
      InAssuanRange (sendCommand cnt ctx command transaction).err.code) ∧
    ((sendCommand cnt ctx command transaction).session.respond = ctx.respond ∧
      ∃ n, (sendCommand cnt ctx command transaction).session.history =
        attemptHistory ctx command n) := by
  have hout : ¬ InAssuanRange (sendCommand cnt ctx command transaction).err.code →
      (sendCommand cnt ctx command transaction).context =
        some (sendCommand cnt ctx command transaction).session := by
    intro h
    rw [sendCommand_context]
    exact if_neg h
  refine ⟨hout, ?_, ⟨?_, ?_⟩, sendCommand_same_session cnt ctx command transaction⟩
  · intro h0
    apply hout
    rw [h0]
    decide
  · intro hnone
    by_contra hr
    rw [hout hr] at hnone
    injection hnone
  · intro hr
    rw [sendCommand_context]
    exact if_pos hr

/-- C16, witness: the sample session that refuses every command with code 100, and the
sample session that answers at the third attempt. -/
theorem sendCommand_keeps_handle_outside_range_witness :
    (sendCommand 0 refusingSession "SCD SERIALNO" (some emptyTransaction)).context =
        some (sendCommand 0 refusingSession "SCD SERIALNO" (some emptyTransaction)).session ∧
      (sendCommand 0 slowStartSession "SCD SERIALNO" (some emptyTransaction)).context =
        some (sendCommand 0 slowStartSession "SCD SERIALNO" (some emptyTransaction)).session :=
  ⟨(sendCommand_keeps_handle_outside_range 0 refusingSession "SCD SERIALNO"
      (some emptyTransaction)).1 (by decide),
    (sendCommand_keeps_handle_outside_range 0 slowStartSession "SCD SERIALNO"
      (some emptyTransaction)).2.1 (by decide)⟩

end Assuan

namespace Algorithm

/-! ## `contains` and `binary_find` -/

theorem find_le_length {α κ : Type} (eq : α → κ → Bool) (key : κ) :
    ∀ l : List α, find eq l key ≤ l.length
  | [] => Nat.le_refl 0
  | x :: xs => by
    have ih := find_le_length eq key xs
    simp only [find, List.length_cons]
    split_ifs <;> omega

theorem find_eq_length_iff {α κ : Type} (eq : α → κ → Bool) (key : κ) :
    ∀ l : List α, find eq l key = l.length ↔ ∀ x ∈ l, eq x key = false
  | [] => by simp [find]
  | x :: xs => by
    have ih := find_eq_length_iff eq key xs
    simp only [find, List.length_cons, List.mem_cons, forall_eq_or_imp]
    cases hx : eq x key with
    | true => simp
    | false =>
      simp only [Bool.false_eq_true, if_false, Nat.add_right_cancel_iff, true_and]
      exact ih

theorem contains_eq_true_iff {α κ : Type} (eq : α → κ → Bool) (container : List α) (key : κ) :
    contains eq container key = true ↔ ∃ x ∈ container, eq x key = true := by
  unfold contains
  rw [bne_iff_ne, Ne, find_eq_length_iff]
  simp

/-- C14: `Kleo::contains` returns true if and only if some element of the container
compares equal to the key; for the equality of the element type this is membership of
the key; and it returns false for the empty container. -/
theorem contains_iff_some_element_equal {α κ : Type} (eq : α → κ → Bool)
    (container : List α) (key : κ) :
    (contains eq container key = true ↔ ∃ x ∈ container, eq x key = true) ∧
    (∀ [DecidableEq α] (c : List α) (k : α),
      contains (fun x y => decide (x = y)) c k = true ↔ k ∈ c) ∧
    contains eq [] key = false := by
  refine ⟨contains_eq_true_iff eq container key, ?_, rfl⟩
  intro _ c k
  rw [contains_eq_true_iff]
  constructor
  · rintro ⟨x, hx, he⟩
    rw [decide_eq_true_iff] at he
    exact he ▸ hx
  · intro hk
    exact ⟨k, hk, decide_eq_true rfl⟩

end Algorithm

namespace Algorithm

theorem StrictWeakOrdering.cotrans {α : Type} {comp : α → α → Bool}
    (h : StrictWeakOrdering comp) {x y : α} (hxy : comp x y = true) (z : α) :
    comp x z = true ∨ comp z y = true := by
  cases hxz : comp x z with
  | true => exact Or.inl rfl
  | false =>
    cases hzy : comp z y with
    | true => exact Or.inr rfl
    | false =>
      exfalso
      cases hzx : comp z x with
      | true =>
        have := h.trans z x y hzx hxy
        rw [hzy] at this
        exact Bool.false_ne_true this
      | false =>
        cases hyz : comp y z with
        | true =>
          have := h.trans x y z hxy hyz
          rw [hxz] at this
          exact Bool.false_ne_true this
        | false =>
          have := (h.incomp_trans x z y hxz hzx hzy hyz).1
          rw [hxy] at this
          exact Bool.false_ne_true this.symm

/-- In a sorted sequence the elements less than `value` come before the others. -/
theorem sorted_partitioned {α : Type} {comp : α → α → Bool} (h : StrictWeakOrdering comp)
    {range : List α} (hs : SortedUnder comp range) (value : α) :
    ∀ (i j : Nat) (x y : α), i ≤ j → range[i]? = some x → range[j]? = some y →
      comp y value = true → comp x value = true := by
  intro i j x y hij hx hy hyv
  rcases Nat.eq_or_lt_of_le hij with rfl | hlt
  · rw [hx] at hy
    injection hy with hy
    rw [hy]; exact hyv
  · obtain ⟨hi, rfl⟩ := List.getElem?_eq_some.1 hx
    obtain ⟨hj, rfl⟩ := List.getElem?_eq_some.1 hy
    have hsorted := List.pairwise_iff_getElem.1 hs i j hi hj hlt
    rcases h.cotrans hyv range[i] with hc | hc
    · rw [hsorted] at hc
      exact absurd hc Bool.false_ne_true
    · exact hc

/-- In a sorted sequence the elements that `value` is less than come after the others. -/
theorem sorted_partitioned_upper {α : Type} {comp : α → α → Bool} (h : StrictWeakOrdering comp)
    {range : List α} (hs : SortedUnder comp range) (value : α) :
    ∀ (i j : Nat) (x y : α), i ≤ j → range[i]? = some x → range[j]? = some y →
      comp value x = true → comp value y = true := by
  intro i j x y hij hx hy hvx
  rcases Nat.eq_or_lt_of_le hij with rfl | hlt
  · rw [hx] at hy
    injection hy with hy
    rw [← hy]; exact hvx
  · obtain ⟨hi, rfl⟩ := List.getElem?_eq_some.1 hx
    obtain ⟨hj, rfl⟩ := List.getElem?_eq_some.1 hy
    have hsorted := List.pairwise_iff_getElem.1 hs i j hi hj hlt
    rcases h.cotrans hvx range[j] with hc | hc
    · exact hc
    · rw [hsorted] at hc
      exact absurd hc Bool.false_ne_true

/-- The binary search ends at the boundary between the elements less than `value` and
the others, given that the former come first; `len` rounds are enough. -/
theorem lowerBoundLoop_boundary {α : Type} (comp : α → α → Bool) (range : List α) (value : α)
    (hpart : ∀ (i j : Nat) (x y : α), i ≤ j → range[i]? = some x → range[j]? = some y →
      comp y value = true → comp x value = true) :
    ∀ (rounds first len : Nat), len ≤ rounds → first + len ≤ range.length →
      (∀ i x, i < first → range[i]? = some x → comp x value = true) →
      (∀ i x, first + len ≤ i → range[i]? = some x → comp x value = false) →
      lowerBoundLoop comp range value rounds first len ≤ range.length ∧
      (∀ i x, i < lowerBoundLoop comp range value rounds first len →
        range[i]? = some x → comp x value = true) ∧
      (∀ i x, lowerBoundLoop comp range value rounds first len ≤ i →
        range[i]? = some x → comp x value = false) := by
  intro rounds
  induction rounds with
  | zero =>
    intro first len hlen hbound hlow hup
    have h0 : len = 0 := by omega
    subst h0
    exact ⟨by simpa using hbound, hlow, fun i x hi => hup i x (by simpa using hi)⟩
  | succ rounds ih =>
    intro first len hlen hbound hlow hup
    by_cases h0 : len = 0
    · subst h0
      simp only [lowerBoundLoop, if_true]
      exact ⟨by simpa using hbound, hlow, fun i x hi => hup i x (by simpa using hi)⟩
    · have hmid : first + len / 2 < range.length := by
        have : len / 2 < len := Nat.div_lt_self (Nat.pos_of_ne_zero h0) (by decide)
        omega
      have hget : range[first + len / 2]? = some range[first + len / 2] :=
        List.getElem?_eq_getElem hmid
      simp only [lowerBoundLoop, h0, if_false, hget]
      cases hc : comp range[first + len / 2] value with
      | true =>
        simp only [if_true]
        apply ih
        · omega
        · omega
        · intro i x hi hx
          exact hpart i (first + len / 2) x _ (by omega) hx hget hc
        · intro i x hi hx
          exact hup i x (by omega) hx
      | false =>
        simp only [Bool.false_eq_true, if_false]
        apply ih
        · omega
        · omega
        · exact hlow
        · intro i x hi hx
          cases hxv : comp x value with
          | false => rfl
          | true =>
            have := hpart (first + len / 2) i _ x hi hget hx hxv
            rw [hc] at this
            exact absurd this Bool.false_ne_true

theorem lower_bound_boundary {α : Type} {comp : α → α → Bool} (h : StrictWeakOrdering comp)
    {range : List α} (hs : SortedUnder comp range) (value : α) :
    lower_bound comp range value ≤ range.length ∧
      (∀ i x, i < lower_bound comp range value → range[i]? = some x → comp x value = true) ∧
      (∀ i x, lower_bound comp range value ≤ i → range[i]? = some x →
        comp x value = false) := by
  unfold lower_bound
  apply lowerBoundLoop_boundary comp range value (sorted_partitioned h hs value)
  · exact Nat.le_refl _
  · omega
  · intro i x hi; omega
  · intro i x hi hx
    have := (List.getElem?_eq_some.1 hx).1
    omega

end Algorithm

namespace Algorithm

theorem binary_find_cases {α : Type} (comp : α → α → Bool) (range : List α) (value : α) :
    (binary_find comp range value = range.length ∧
      (range[lower_bound comp range value]? = none ∨
        ∃ x, range[lower_bound comp range value]? = some x ∧ comp value x = true)) ∨
    (binary_find comp range value = lower_bound comp range value ∧
      ∃ x, range[lower_bound comp range value]? = some x ∧ comp value x = false) := by
  have key : binary_find comp range value =
      match range[lower_bound comp range value]? with
      | none => range.length
      | some x => if comp value x then range.length else lower_bound comp range value := rfl
  rw [key]
  cases range[lower_bound comp range value]? with
  | none => exact Or.inl ⟨rfl, Or.inl rfl⟩
  | some x =>
    cases hc : comp value x with
    | true => exact Or.inl ⟨by simp [hc], Or.inr ⟨x, rfl, hc⟩⟩
    | false => exact Or.inr ⟨by simp [hc], x, rfl, hc⟩

theorem natLess_strictWeakOrdering : StrictWeakOrdering natLess where
  irrefl := by intro x; simp [natLess]
  trans := by
    intro x y z hxy hyz
    simp only [natLess, decide_eq_true_eq] at *
    omega
  incomp_trans := by
    intro x y z h1 h2 h3 h4
    simp only [natLess, decide_eq_false_iff_not] at *
    omega

/-- C18: on a range sorted in non-decreasing order under a strict weak ordering
(`operator<` or the comparison passed in), `binary_find` returns the end position if
and only if no element of the range is equivalent to the value; otherwise it returns
a position that holds an element equivalent to the value, with no equivalent element
before it. So when equivalence under the ordering is the equality that
`Kleo::contains` uses, `binary_find` returns a position other than the end exactly
when `Kleo::contains` returns true. -/
theorem binary_find_sorted {α : Type} (comp : α → α → Bool) (range : List α) (value : α)
    (hswo : StrictWeakOrdering comp) (hsorted : SortedUnder comp range) :
    (binary_find comp range value = range.length ↔
      ∀ x ∈ range, ¬ Equivalent comp x value) ∧
    (binary_find comp range value ≠ range.length →
      binary_find comp range value < range.length ∧
      ∃ x, range[binary_find comp range value]? = some x ∧ Equivalent comp x value ∧
        ∀ i y, i < binary_find comp range value → range[i]? = some y →
          ¬ Equivalent comp y value) ∧
    (∀ eq : α → α → Bool, (∀ x y, eq x y = true ↔ Equivalent comp x y) →
      (binary_find comp range value ≠ range.length ↔ contains eq range value = true)) := by
  obtain ⟨hle, hlow, hup⟩ := lower_bound_boundary hswo hsorted value
  have hend : binary_find comp range value = range.length ↔
      ∀ x ∈ range, ¬ Equivalent comp x value := by
    constructor
    · intro hbf x hx hequiv
      obtain ⟨i, hi⟩ := List.mem_iff_getElem?.1 hx
      by_cases hip : i < lower_bound comp range value
      · have := hlow i x hip hi
        rw [hequiv.1] at this
        exact Bool.false_ne_true this
      · rcases binary_find_cases comp range value with ⟨_, hnone | ⟨y, hy, hvy⟩⟩ | ⟨hp, y, hy, _⟩
        · rw [List.getElem?_eq_none_iff] at hnone
          have := (List.getElem?_eq_some.1 hi).1
          omega
        · have := sorted_partitioned_upper hswo hsorted value _ i y x (by omega) hy hi hvy
          rw [hequiv.2] at this
          exact Bool.false_ne_true this
        · have := (List.getElem?_eq_some.1 hy).1
          omega
    · intro hnone
      rcases binary_find_cases comp range value with ⟨h, _⟩ | ⟨_, y, hy, hvy⟩
      · exact h
      · exact absurd ⟨hup _ y (Nat.le_refl _) hy, hvy⟩
          (hnone y (List.mem_iff_getElem?.2 ⟨_, hy⟩))
  refine ⟨hend, ?_, ?_⟩
  · intro hne
    rcases binary_find_cases comp range value with ⟨h, _⟩ | ⟨hp, y, hy, hvy⟩
    · exact absurd h hne
    · rw [hp]
      refine ⟨(List.getElem?_eq_some.1 hy).1, y, hy, ⟨hup _ y (Nat.le_refl _) hy, hvy⟩, ?_⟩
      intro i z hi hz hequiv
      have := hlow i z hi hz
      rw [hequiv.1] at this
      exact Bool.false_ne_true this
  · intro eq heq
    rw [Ne, hend, contains_eq_true_iff]
    constructor
    · intro h
      by_contra hno
      apply h
      intro x hx hequiv
      exact hno ⟨x, hx, (heq x value).2 hequiv⟩
    · rintro ⟨x, hx, he⟩ hall
      exact hall x hx ((heq x value).1 he)

/-- C18, witness: the sorted sequence 1, 3, 3, 5, 7 under `<` on the natural numbers:
the value 3 is found at position 1, the first of the two positions that hold it. -/
theorem binary_find_sorted_witness :
    binary_find natLess [1, 3, 3, 5, 7] 3 = 1 ∧
      (binary_find natLess [1, 3, 3, 5, 7] 4 = [1, 3, 3, 5, 7].length ↔
        ∀ x ∈ [1, 3, 3, 5, 7], ¬ Equivalent natLess x 4) ∧
      (binary_find natLess [1, 3, 3, 5, 7] 3 ≠ [1, 3, 3, 5, 7].length ↔
        contains natEq [1, 3, 3, 5, 7] 3 = true) :=
  ⟨by decide,
    (binary_find_sorted natLess [1, 3, 3, 5, 7] 4 natLess_strictWeakOrdering
      (by unfold SortedUnder; decide)).1,
    (binary_find_sorted natLess [1, 3, 3, 5, 7] 3 natLess_strictWeakOrdering
      (by unfold SortedUnder; decide)).2.2 natEq (by
        intro x y
        simp only [natEq, Equivalent, natLess, decide_eq_true_eq, decide_eq_false_iff_not]
        omega)⟩

end Algorithm
end Kleo
